import Mathlib

/-!
# LSD: a shallow embedding of `src/librecast.c` (the protocol engine) and `src/lsd.c`
(the controller)

The C code is translated function by function.  Conventions of the embedding:

* a byte is a `Fin 256`; a C buffer is a `List Byte`; a possibly-NULL pointer to a
  buffer is an `Option Bytes`;
* unsigned machine integers are `Nat`, reduced `% 2 ^ w` where the C arithmetic wraps;
* the host is little-endian (x86-64 Linux): `memcpy` into an integer object followed
  by `ntohl`/`be32toh` is modelled as a little-endian load followed by a byte swap;
* undefined behaviour of the C program (a read past the end of a buffer, a use of
  freed memory, a copy larger than its destination) is the outcome `Run.fault`;
* a loop that C does not bound is run with an explicit budget, and `Run.nofuel`
  is the outcome when the budget is used up;
* calls into collaborators (the librecast library, the websocket transport, the
  error log) are recorded, in order, as a list of `Event`s; what a collaborator
  returns is read from the environment `Env`;
* memory allocation is assumed to succeed; trace logging (`logmsg`, `DEBUG`) is left out.
-/

namespace Lsd

/-! ## Outcomes -/

/-- Outcome of running a piece of the C program. -/
inductive Run (α : Type) where
  /-- normal completion -/
  | done (a : α)
  /-- undefined behaviour in C: out-of-bounds access, use after free -/
  | fault
  /-- the loop budget of the model ran out -/
  | nofuel
deriving DecidableEq, Repr

/-- Sequencing of outcomes. -/
def Run.bind {α β : Type} (x : Run α) (f : α → Run β) : Run β :=
  match x with
  | .done a => f a
  | .fault => .fault
  | .nofuel => .nofuel

instance : Monad Run where
  pure := Run.done
  bind := Run.bind

/-! ## Bytes and byte order -/

/-- One octet. -/
abbrev Byte := Fin 256

/-- A buffer of octets. -/
abbrev Bytes := List Byte

/-- The octet holding `n % 256`. -/
def byte (n : Nat) : Byte := ⟨n % 256, Nat.mod_lt n (by decide)⟩

/-- Value of an unsigned integer object whose bytes, in memory order, are `bs`
(little-endian host). -/
def le_val : Bytes → Nat
  | [] => 0
  | b :: bs => b.val + 256 * le_val bs

/-- Object representation, in memory order, of the `w`-byte unsigned integer `n`
(little-endian host). -/
def le_bytes : Nat → Nat → Bytes
  | 0, _ => []
  | w + 1, n => byte n :: le_bytes w (n / 256)

/-- Byte swap of a 16-bit value. -/
def bswap16 (x : Nat) : Nat := x % 256 * 256 + x / 256 % 256

/-- Byte swap of a 32-bit value. -/
def bswap32 (x : Nat) : Nat :=
  x % 256 * 2 ^ 24 + x / 2 ^ 8 % 256 * 2 ^ 16 + x / 2 ^ 16 % 256 * 2 ^ 8 + x / 2 ^ 24 % 256

/-- Byte swap of a 64-bit value. -/
def bswap64 (x : Nat) : Nat :=
  bswap32 (x % 2 ^ 32) * 2 ^ 32 + bswap32 (x / 2 ^ 32 % 2 ^ 32)

/-- Function `ntohl` on a little-endian host. -/
def ntohl (x : Nat) : Nat := bswap32 (x % 2 ^ 32)

/-- Function `htonl` on a little-endian host. -/
def htonl (x : Nat) : Nat := bswap32 (x % 2 ^ 32)

/-- Function `htobe64` on a little-endian host. -/
def htobe64 (x : Nat) : Nat := bswap64 (x % 2 ^ 64)

/-- Function `be16toh` on a little-endian host; the argument is converted to `uint16_t`. -/
def be16toh (x : Nat) : Nat := bswap16 (x % 2 ^ 16)

/-- Function `be32toh` on a little-endian host; the argument is converted to `uint32_t`. -/
def be32toh (x : Nat) : Nat := bswap32 (x % 2 ^ 32)

/-- The big-endian ("network order") value of a byte sequence. -/
def be_val : Bytes → Nat
  | [] => 0
  | b :: bs => b.val * 256 ^ bs.length + be_val bs

/-- The `n` bytes at offset `off` of the buffer `p` points to: what
`memcpy(dst, p + off, n)` reads.  Reading through NULL or past the end of the
buffer is undefined; a copy of zero bytes reads nothing. -/
def rd (p : Option Bytes) (off n : Nat) : Run Bytes :=
  if n = 0 then .done []
  else match p with
    | none => .fault
    | some buf => if off + n ≤ buf.length then .done ((buf.drop off).take n) else .fault

/-- The C string stored in a buffer that is followed by a terminating NUL:
the bytes before the first zero byte. -/
def cstr (b : Bytes) : Bytes := b.takeWhile (fun x => x.val ≠ 0)

/-- Whether `strcmp(a, b) == 0` for two NUL-terminated buffers. -/
def strcmp_eq (a b : Bytes) : Bool := cstr a = cstr b

/-! ## The protocol frame (`lcast_frame_t`) and the transport frame (`ws_frame_t`) -/

/-- Modelled from the spec: `lcast_frame_t` is declared in `librecast.h`, which is
not among the sources.  The spec gives the packed wire header
`opcode:1, length:4, primaryId:4, secondaryId:4, token:4, timestamp:8`. -/
structure lcast_frame_t where
  opcode : Nat
  len : Nat
  id : Nat
  id2 : Nat
  token : Nat
  timestamp : Nat
deriving DecidableEq, Repr

/-- Modelled from the spec: `sizeof(lcast_frame_t)`, the packed header of 25 bytes. -/
def sizeof_lcast_frame_t : Nat := 25

/-- Modelled from the spec: the fields of the transport frame `ws_frame_t`
(declared in a header that is not among the sources) that `librecast.c` reads:
the final-fragment flag, the transport opcode and the frame data. -/
structure ws_frame_t where
  fin : Bool
  opcode : Nat
  data : Bytes
deriving DecidableEq, Repr

/-- Transport opcode of a continuation frame (case `0x0` of `lcast_handle_client_data`). -/
def WS_OPCODE_CONTINUE : Nat := 0

/-- Transport opcode of a binary frame (case `0x2` of `lcast_handle_client_data`). -/
def WS_OPCODE_BINARY : Nat := 2

/-- Function `lcast_frame_decode`: the frame is `calloc`ed (all fields zero), then opcode,
len, id, id2 and token are copied from offsets 0, 1, 5, 9 and 13 of the transport
data and the four 32-bit fields converted with `ntohl`.  The timestamp is never
assigned. -/
def lcast_frame_decode (f : ws_frame_t) : Run lcast_frame_t := do
  let head := some f.data
  let offset := 0
  let b_opcode ← rd head offset 1
  let offset := offset + 1
  let b_len ← rd head offset 4
  let offset := offset + 4
  let b_id ← rd head offset 4
  let offset := offset + 4
  let b_id2 ← rd head offset 4
  let offset := offset + 4
  let b_token ← rd head offset 4
  pure { opcode := le_val b_opcode
         len := ntohl (le_val b_len)
         id := ntohl (le_val b_id)
         id2 := ntohl (le_val b_id2)
         token := ntohl (le_val b_token)
         timestamp := 0 }

/-! ## Error codes -/

/-- Modelled from the spec: the error codes that `librecast.c` names.  The `err.h`
among the sources is an older revision that does not list them; in its
enumeration style every name is a distinct non-zero code (`LSD_ERROR_SUCCESS`
is 0).  `collaborator rc` stands for a non-zero code handed back by the library. -/
inductive lsd_error where
  | LSD_ERROR_NOT_IMPLEMENTED
  | LSD_ERROR_LIBRECAST_CHANNEL_NOT_EXIST
  | LSD_ERROR_LIBRECAST_CHANNEL_NOT_CREATED
  | LSD_ERROR_LIBRECAST_INVALID_SOCKET_ID
  | LSD_ERROR_LIBRECAST_SOCKET_NOT_CREATED
  | LSD_ERROR_LIBRECAST_INVALID_PARAMS
  | LSD_ERROR_LIBRECAST_OPCODE_INVALID
  | collaborator (rc : Int)
deriving DecidableEq, Repr

open lsd_error

/-- The `int` a command returns: 0 or an error code. -/
inductive Ret where
  | success
  | failure (e : lsd_error)
deriving DecidableEq, Repr

/-! ## Collaborators -/

/-- Value of a query filter handed to `lc_query_push`: a NUL-terminated string
(given by its bytes before the terminator that `calloc` supplies) or a 64-bit
timestamp. -/
inductive QVal where
  | str (b : Bytes)
  | time (t : Nat)
deriving DecidableEq, Repr

/-- One element of the `lc_messagelist_t` that `lc_query_exec` returns. -/
structure lc_messagelist_t where
  timestamp : Nat
  data : Bytes
deriving DecidableEq, Repr

/-- The fields of `lc_message_t` that `lcast_recv` reads. -/
structure lc_message_t where
  op : Nat
  len : Nat
  data : Bytes
  sockid : Nat
  timestamp : Nat
deriving DecidableEq, Repr

/-- The command functions of `librecast.c` that the opcode table can name. -/
inductive lcast_cmd where
  | noop
  | socket_new
  | socket_getopt
  | socket_setopt
  | socket_listen
  | socket_ignore
  | socket_close
  | channel_new
  | channel_getop
  | channel_setop
  | channel_getval
  | channel_setval
  | channel_getmsg
  | channel_bind
  | channel_unbind
  | channel_join
  | channel_part
  | channel_send
deriving DecidableEq, Repr

/-- What the program takes from outside `librecast.c`: the constants and the table
of headers that are not among the sources, and the answers of the collaborators. -/
structure Env where
  /-- the opcode table `LCAST_OPCODES`: the command of each protocol opcode -/
  LCAST_OPCODES : Nat → Option lcast_cmd
  LCAST_OP_SOCKET_MSG : Nat
  LCAST_OP_CHANNEL_GETVAL : Nat
  LCAST_OP_CHANNEL_SETVAL : Nat
  LC_QUERY_CHANNEL : Nat
  LC_QUERY_DB : Nat
  LC_QUERY_KEY : Nat
  LC_QUERY_TIME : Nat
  LC_OP_RET : Nat
  LC_OP_SET : Nat
  sizeof_lc_seq_t : Nat
  sizeof_lc_rnd_t : Nat
  /-- Function `lc_socket_get_id` of the socket handle created n-th -/
  lc_socket_get_id : Nat → Nat
  /-- Function `lc_channel_get_id` of the channel handle created n-th for a name -/
  lc_channel_get_id : Nat → Bytes → Nat
  /-- Function `lc_db_get`: the cached value of a key on a channel, when there is one -/
  lc_db_get : Nat → Bytes → Option Bytes
  /-- return code of `lc_query_new` -/
  lc_query_new : Int
  /-- Function `lc_query_exec`: the messages matching a list of pushed filters -/
  lc_query_exec : List (Nat × QVal) → List lc_messagelist_t
  /-- content of memory that `malloc`/`realloc` hands out uninitialised -/
  uninit : Nat → Byte
  /-- iteration budget for the filter loop of `lcast_cmd_channel_getmsg` -/
  fuel : Nat

/-- A call into a collaborator, with the arguments that matter. -/
inductive Event where
  | ws_send (c : Option Nat) (opcode : Nat) (data : Bytes)
  | err_log (e : lsd_error)
  | lc_ctx_new
  | lc_db_open
  | pthread_create
  | lc_socket_new (sock : Nat)
  | lc_socket_listen (sock : Nat)
  | lc_channel_new (chan : Nat) (name : Bytes)
  | lc_channel_bind (sock chan : Nat)
  | lc_channel_join (chan : Nat)
  | lc_channel_part (chan : Nat)
  | lc_channel_free (chan : Nat)
  | lc_msg_send (chan : Nat) (data : Bytes)
  | lc_db_get (chan : Nat) (key : Bytes)
  | lc_db_set (chan : Nat) (key val : Bytes)
  | lc_channel_getval (chan : Nat) (key : Bytes)
  | lc_channel_setval (chan : Nat) (key val : Bytes)
  | lc_query_new
  | lc_query_push (op : Nat) (val : QVal)
  | lc_query_exec
  | lc_msglist_free
  | lc_query_free
deriving DecidableEq, Repr

/-! ## Session registry and the state of a worker -/

/-- A node of the socket list `lsock`; `next` is the order of the list. -/
structure lcast_sock_t where
  sock : Nat
  id : Nat
  token : Nat
deriving DecidableEq, Repr

/-- A node of the channel list `lchan`; `next` is the order of the list.  `name` holds
the bytes of the name buffer before its terminating NUL.  `freed` records that the
node and its name were released with `free`: reading such a node is undefined. -/
structure lcast_chan_t where
  chan : Nat
  id : Nat
  name : Bytes
  freed : Bool
deriving DecidableEq, Repr

/-- The globals of `librecast.c`, the two statics of `lcast_cmd_handler` (`stash`,
`len`) and the number of handles the library has created so far. -/
structure St where
  websock : Option Nat
  keepalive_thread : Bool
  lctx : Bool
  lsock : List lcast_sock_t
  lchan : List lcast_chan_t
  stash : Option Bytes
  len : Nat
  nsock : Nat
  nchan : Nat
deriving DecidableEq, Repr

/-- The state at program start: every global is NULL or 0. -/
def St.init : St :=
  { websock := none, keepalive_thread := false, lctx := false, lsock := [], lchan := [],
    stash := none, len := 0, nsock := 0, nchan := 0 }

/-- Function `lcast_socket_byid`: first node of `lsock` with the id, with its position. -/
def lcast_socket_byid_from (i : Nat) : List lcast_sock_t → Nat → Option (Nat × lcast_sock_t)
  | [], _ => none
  | p :: rest, id => if p.id = id then some (i, p) else lcast_socket_byid_from (i + 1) rest id

/-- Function `lcast_socket_byid`. -/
def lcast_socket_byid (s : St) (id : Nat) : Option (Nat × lcast_sock_t) :=
  lcast_socket_byid_from 0 s.lsock id

/-- Loop of `lcast_channel_byid`: first node with the id, with its position. -/
def lcast_channel_byid_from (i : Nat) : List lcast_chan_t → Nat → Run (Option (Nat × lcast_chan_t))
  | [], _ => .done none
  | p :: rest, id =>
    if p.freed then .fault
    else if p.id = id then .done (some (i, p))
    else lcast_channel_byid_from (i + 1) rest id

/-- Function `lcast_channel_byid`. -/
def lcast_channel_byid (s : St) (id : Nat) : Run (Option (Nat × lcast_chan_t)) :=
  lcast_channel_byid_from 0 s.lchan id

/-- Loop of `lcast_channel_byname`: first node whose name compares equal. -/
def lcast_channel_byname_from (i : Nat) : List lcast_chan_t → Bytes → Run (Option (Nat × lcast_chan_t))
  | [], _ => .done none
  | p :: rest, name =>
    if p.freed then .fault
    else if strcmp_eq p.name name then .done (some (i, p))
    else lcast_channel_byname_from (i + 1) rest name

/-- Function `lcast_channel_byname`. -/
def lcast_channel_byname (s : St) (name : Bytes) : Run (Option (Nat × lcast_chan_t)) :=
  lcast_channel_byname_from 0 s.lchan name

/-- Function `lcast_channel_free`: the library channel is released, then the name and the
node are freed.  The node is not unlinked from `lchan` (the final `chan = NULL`
assigns the parameter only). -/
def lcast_channel_free (s : St) (p : Nat × lcast_chan_t) : St × List Event :=
  ({ s with lchan := s.lchan.set p.1 { p.2 with freed := true } },
   [Event.lc_channel_free p.2.chan])

/-- Function `lcast_init`: create the library context once, open the database, start the
keepalive thread once. -/
def lcast_init (s : St) : St × List Event :=
  ({ s with lctx := true, keepalive_thread := true },
   (if s.lctx then [] else [Event.lc_ctx_new]) ++ [Event.lc_db_open]
     ++ (if s.keepalive_thread then [] else [Event.pthread_create]))

/-- Function `lcast_socket_new`: a new node for a new library socket, appended to `lsock`. -/
def lcast_socket_new (env : Env) (s : St) : lcast_sock_t × St × List Event :=
  let (s, ev) := lcast_init s
  let h := s.nsock
  let sock : lcast_sock_t := { sock := h, id := env.lc_socket_get_id h % 2 ^ 32, token := 0 }
  (sock, { s with lsock := s.lsock ++ [sock], nsock := s.nsock + 1 }, ev ++ [Event.lc_socket_new h])

/-- Function `lcast_channel_new`: the existing node of that name if there is one (its search
loop is the loop of `lcast_channel_byname`, and it remembers the last node), else
a new node for a new library channel, linked behind the last node. -/
def lcast_channel_new (env : Env) (s : St) (name : Bytes) : Run (lcast_chan_t × St × List Event) := do
  let (s, ev) := lcast_init s
  let found ← lcast_channel_byname_from 0 s.lchan name
  match found with
  | some (_, p) => pure (p, s, ev)
  | none =>
    let h := s.nchan
    let chan : lcast_chan_t :=
      { chan := h, id := env.lc_channel_get_id h name % 2 ^ 32, name := name, freed := false }
    pure (chan, { s with lchan := s.lchan ++ [chan], nchan := s.nchan + 1 },
          ev ++ [Event.lc_channel_new h name])

/-! ## Frame codec: sending -/

/-- The packed header `lcast_frame_send` builds in `msg`, in memory order. -/
def frame_head (req : lcast_frame_t) (paylen : Nat) : Bytes :=
  le_bytes 1 req.opcode ++ le_bytes 4 (htonl paylen) ++ le_bytes 4 (htonl req.id)
    ++ le_bytes 4 (htonl req.id2) ++ le_bytes 4 (htonl req.token)
    ++ le_bytes 8 (htobe64 req.timestamp)

/-- Function `lcast_frame_send`: a zeroed buffer of header size plus `paylen`, the header
copied in, the payload copied behind it when there is one, handed to `ws_send`
as one binary message. -/
def lcast_frame_send (c : Option Nat) (req : lcast_frame_t) (payload : Option Bytes)
    (paylen : Nat) : Run (List Event) := do
  let body ←
    if payload.isSome ∧ paylen > 0 then rd payload 0 paylen
    else pure (List.replicate paylen (0 : Byte))
  pure [Event.ws_send c WS_OPCODE_BINARY (frame_head req paylen ++ body)]

/-! ## Commands -/

/-- What a command hands back: its return value, the new state, its calls. -/
abbrev Out := Ret × St × List Event

/-- Modelled from the spec: the macro `FAIL(code)` (its header is not among the
sources) reports the error code to the log and makes the command return it. -/
def FAIL (e : lsd_error) (s : St) : Run Out :=
  .done (Ret.failure e, s, [Event.err_log e])

/-- Modelled from the spec: the macro `ERRMSG(code)` (its header is not among the
sources) reports the error code to the log; execution goes on. -/
def ERRMSG (e : lsd_error) : List Event := [Event.err_log e]

/-- Function `lcast_cmd_noop` and the commands whose body is `TODO`: return 0. -/
def lcast_cmd_noop (s : St) : Run Out := .done (Ret.success, s, [])

/-- Function `lcast_cmd_channel_bind`. -/
def lcast_cmd_channel_bind (s : St) (c : Option Nat) (req : lcast_frame_t) : Run Out := do
  match ← lcast_channel_byid s req.id with
  | none => FAIL LSD_ERROR_LIBRECAST_CHANNEL_NOT_EXIST s
  | some chan =>
    match lcast_socket_byid s req.id2 with
    | none => FAIL LSD_ERROR_LIBRECAST_INVALID_SOCKET_ID s
    | some sk =>
      let sent ← lcast_frame_send c req none 0
      pure (Ret.success, s, [Event.lc_channel_bind sk.2.sock chan.2.chan] ++ sent)

/-- Function `lcast_cmd_channel_join`. -/
def lcast_cmd_channel_join (s : St) (c : Option Nat) (req : lcast_frame_t) : Run Out := do
  match ← lcast_channel_byid s req.id with
  | none => FAIL LSD_ERROR_LIBRECAST_CHANNEL_NOT_EXIST s
  | some chan =>
    let sent ← lcast_frame_send c req none 0
    pure (Ret.success, s, [Event.lc_channel_join chan.2.chan] ++ sent)

/-- Function `lcast_cmd_channel_new`: the name is the first `req->len` bytes of the
payload, copied into a zeroed buffer of `req->len + 1` bytes (32-bit sum: when it
wraps to 0 the copy overruns the buffer). -/
def lcast_cmd_channel_new (env : Env) (s : St) (c : Option Nat) (req : lcast_frame_t)
    (payload : Option Bytes) : Run Out := do
  if (req.len + 1) % 2 ^ 32 < req.len then .fault
  else
    let channel ← rd payload 0 req.len
    let (chan, s, ev) ← lcast_channel_new env s channel
    let req := { req with id := chan.id }
    let sent ← lcast_frame_send c req none 0
    pure (Ret.success, s, ev ++ sent)

/-- Function `lcast_cmd_channel_part`. -/
def lcast_cmd_channel_part (s : St) (req : lcast_frame_t) : Run Out := do
  match ← lcast_channel_byid s req.id with
  | none => FAIL LSD_ERROR_LIBRECAST_CHANNEL_NOT_EXIST s
  | some chan =>
    let (s, ev) := lcast_channel_free s chan
    pure (Ret.success, s, [Event.lc_channel_part chan.2.chan] ++ ev)

/-- Function `lcast_cmd_channel_send`. -/
def lcast_cmd_channel_send (s : St) (req : lcast_frame_t) (payload : Option Bytes) : Run Out := do
  match ← lcast_channel_byid s req.id with
  | none => FAIL LSD_ERROR_LIBRECAST_CHANNEL_NOT_EXIST s
  | some chan =>
    let data ← rd payload 0 req.len
    pure (Ret.success, s, [Event.lc_msg_send chan.2.chan data])

/-! ### `channel.getmsg` -/

/-- Whether `isspace(c)` in the C locale. -/
def isspace (c : Byte) : Bool := c.val = 32 ∨ (9 ≤ c.val ∧ c.val ≤ 13)

/-- Whether `c` is a decimal digit. -/
def isdigit (c : Byte) : Bool := 48 ≤ c.val ∧ c.val ≤ 57

/-- The number written by a sequence of decimal digits. -/
def digits_val (ds : Bytes) : Nat := ds.foldl (fun a d => 10 * a + (d.val - 48)) 0

/-- The libc call `strtoumax(s, NULL, 10)` with a 64-bit `uintmax_t`, on the C string in
a buffer: white space is skipped, one sign is accepted, the longest run of digits
is converted; a value that does not fit yields `UINTMAX_MAX`, a minus sign negates
modulo 2^64, no digits yield 0. -/
def strtoumax (buf : Bytes) : Nat :=
  let s := (cstr buf).dropWhile isspace
  let neg := s.head? = some (45 : Byte)
  let s := if s.head? = some (45 : Byte) ∨ s.head? = some (43 : Byte) then s.tail else s
  let v := digits_val (s.takeWhile isdigit)
  if 2 ^ 64 ≤ v then 2 ^ 64 - 1
  else if neg then (2 ^ 64 - v) % 2 ^ 64
  else v

/-- The filter loop of `lcast_cmd_channel_getmsg`, from offset `i`: the filters it
pushes, in order.  `i` is a `uint32_t`; every `calloc(1, len + 1)` is a 32-bit sum. -/
def getmsg_loop (env : Env) (payload : Option Bytes) (reqlen : Nat) :
    Nat → Nat → Run (List (Nat × QVal))
  | 0, _ => .nofuel
  | fuel + 1, i =>
    if i < reqlen then do
      let b_op ← rd payload i 2
      let i := (i + 2) % 2 ^ 32
      let op := be16toh (le_val b_op)
      let b_len ← rd payload i 4
      let i := (i + 4) % 2 ^ 32
      let len := be32toh (le_val b_len)
      if op = env.LC_QUERY_DB ∨ op = env.LC_QUERY_KEY then
        if (len + 1) % 2 ^ 32 < len then .fault
        else
          let tmp ← rd payload i len
          let i := (i + len) % 2 ^ 32
          let rest ← getmsg_loop env payload reqlen fuel i
          pure ((op, QVal.str tmp) :: rest)
      else if op &&& env.LC_QUERY_TIME = env.LC_QUERY_TIME then
        if (len + 1) % 2 ^ 32 < len then .fault
        else
          let tmp ← rd payload i len
          let timestamp := strtoumax tmp
          let i := (i + len) % 2 ^ 32
          let rest ← getmsg_loop env payload reqlen fuel i
          pure ((op, QVal.time timestamp) :: rest)
      else pure []
    else pure []

/-- The reply loop of `lcast_cmd_channel_getmsg`: one frame per message of the list. -/
def getmsg_replies (env : Env) (s : St) (req : lcast_frame_t) :
    List lc_messagelist_t → Run (List Event)
  | [] => pure []
  | msg :: rest => do
    let rep : lcast_frame_t :=
      { opcode := env.LCAST_OP_SOCKET_MSG, len := 0, id := req.id, id2 := 0,
        token := req.token, timestamp := msg.timestamp }
    let sent ← lcast_frame_send s.websock rep (some msg.data) ((cstr msg.data).length % 2 ^ 32)
    let more ← getmsg_replies env s req rest
    pure (sent ++ more)

/-- Function `lcast_cmd_channel_getmsg`. -/
def lcast_cmd_channel_getmsg (env : Env) (s : St) (req : lcast_frame_t)
    (payload : Option Bytes) : Run Out := do
  match ← lcast_channel_byid s req.id with
  | none => FAIL LSD_ERROR_LIBRECAST_CHANNEL_NOT_EXIST s
  | some chan =>
    if env.lc_query_new ≠ 0 then
      .done (Ret.failure (collaborator env.lc_query_new), s,
        [Event.lc_query_new, Event.err_log (collaborator env.lc_query_new)])
    else
      let scope := (env.LC_QUERY_CHANNEL, QVal.str chan.2.name)
      let filters ← getmsg_loop env payload req.len env.fuel 0
      let q := scope :: filters
      let msglist := env.lc_query_exec q
      let sent ← getmsg_replies env s req msglist
      pure (Ret.success, s,
        [Event.lc_query_new] ++ q.map (fun f => Event.lc_query_push f.1 f.2)
          ++ [Event.lc_query_exec] ++ sent ++ [Event.lc_msglist_free, Event.lc_query_free])

/-! ### `channel.getval`, `channel.setval`, sockets -/

/-- Function `lcast_cmd_channel_getval`. -/
def lcast_cmd_channel_getval (env : Env) (s : St) (c : Option Nat) (req : lcast_frame_t)
    (payload : Option Bytes) : Run Out := do
  if payload.isNone then FAIL LSD_ERROR_LIBRECAST_INVALID_PARAMS s
  else
    match ← lcast_channel_byid s req.id with
    | none => FAIL LSD_ERROR_LIBRECAST_CHANNEL_NOT_EXIST s
    | some chan =>
      let key ← rd payload 0 req.len
      let sent ←
        match env.lc_db_get chan.2.chan key with
        | some v => lcast_frame_send c req (some v) (v.length % 2 ^ 32)
        | none => pure []
      pure (Ret.success, s,
        [Event.lc_db_get chan.2.chan key] ++ sent ++ [Event.lc_channel_getval chan.2.chan key])

/-- Function `lcast_cmd_channel_setval`: `key.size` is the big-endian 32-bit number at
the start of the payload, the key the `key.size` bytes behind it, and the value
the `req->len - key.size - 4` bytes (a `size_t` difference) behind the key. -/
def lcast_cmd_channel_setval (s : St) (req : lcast_frame_t) (payload : Option Bytes) :
    Run Out := do
  match ← lcast_channel_byid s req.id with
  | none => FAIL LSD_ERROR_LIBRECAST_CHANNEL_NOT_EXIST s
  | some chan =>
    if payload.isNone then FAIL LSD_ERROR_LIBRECAST_INVALID_PARAMS s
    else
      let keylen_size := 4
      let b_size ← rd payload 0 keylen_size
      let key_size := be32toh (le_val b_size)
      let key_data ← rd payload keylen_size key_size
      let val_size := (req.len + 2 * 2 ^ 64 - key_size - keylen_size) % 2 ^ 64
      let val_data ← rd payload (keylen_size + key_size) val_size
      pure (Ret.success, s,
        [Event.lc_db_set chan.2.chan key_data val_data,
         Event.lc_channel_setval chan.2.chan key_data val_data])

/-- Function `lcast_cmd_socket_listen`. -/
def lcast_cmd_socket_listen (s : St) (c : Option Nat) (req : lcast_frame_t) : Run Out :=
  match lcast_socket_byid s req.id with
  | none => FAIL LSD_ERROR_LIBRECAST_INVALID_SOCKET_ID s
  | some sk =>
    .done (Ret.success,
      { s with websock := c, lsock := s.lsock.set sk.1 { sk.2 with token := req.token } },
      [Event.lc_socket_listen sk.2.sock])

/-- Function `lcast_cmd_socket_new`. -/
def lcast_cmd_socket_new (env : Env) (s : St) (c : Option Nat) (req : lcast_frame_t) : Run Out := do
  let (sk, s, ev) := lcast_socket_new env s
  let req := { req with id := sk.id }
  let sent ← lcast_frame_send c req none 0
  pure (Ret.success, s, ev ++ sent)

/-! ## Dispatch and reassembly -/

/-- Modelled from the spec: one case of the switch that `LCAST_OPCODES(LCAST_OP_FUN)`
expands to (the macro is in a header that is not among the sources): the command
function of the opcode is called with the connection, the frame and the payload. -/
def lcast_cmd.run (env : Env) (s : St) (c : Option Nat) (req : lcast_frame_t)
    (payload : Option Bytes) : lcast_cmd → Run Out
  | .noop => lcast_cmd_noop s
  | .socket_new => lcast_cmd_socket_new env s c req
  | .socket_getopt => lcast_cmd_noop s
  | .socket_setopt => lcast_cmd_noop s
  | .socket_listen => lcast_cmd_socket_listen s c req
  | .socket_ignore => lcast_cmd_noop s
  | .socket_close => lcast_cmd_noop s
  | .channel_new => lcast_cmd_channel_new env s c req payload
  | .channel_getop => lcast_cmd_noop s
  | .channel_setop => lcast_cmd_noop s
  | .channel_getval => lcast_cmd_channel_getval env s c req payload
  | .channel_setval => lcast_cmd_channel_setval s req payload
  | .channel_getmsg => lcast_cmd_channel_getmsg env s req payload
  | .channel_bind => lcast_cmd_channel_bind s c req
  | .channel_unbind => lcast_cmd_noop s
  | .channel_join => lcast_cmd_channel_join s c req
  | .channel_part => lcast_cmd_channel_part s req
  | .channel_send => lcast_cmd_channel_send s req payload

/-- The call `realloc(stash, size)`: the old content up to the new size, the rest
uninitialised.  The block is taken to be there for every size (`assert(stash)` holds). -/
def realloc (env : Env) (stash : Option Bytes) (size : Nat) : Bytes :=
  let old := (stash.getD []).take size
  old ++ (List.range (size - old.length)).map (fun k => env.uninit (old.length + k))

/-- The data-frame branch of `lcast_cmd_handler`: a frame that is not a continuation
resets `len` and frees the stash; the stash is grown to `req->len + len` bytes
(a 64-bit sum) and the `req->len` bytes behind the frame header are copied to
offset `len`, which fills the buffer to its end (a sum that wrapped leaves the
buffer too small for the copy); `len` grows by `req->len`. -/
def stash_frame (env : Env) (s : St) (f : ws_frame_t) (req : lcast_frame_t) : Run St := do
  let s := if f.opcode ≠ WS_OPCODE_CONTINUE then { s with len := 0, stash := none } else s
  let size := (req.len + s.len) % 2 ^ 64
  let buf := realloc env s.stash size
  let data ← rd (some f.data) sizeof_lcast_frame_t req.len
  if s.len + req.len ≤ buf.length then
    pure { s with stash := some (buf.take s.len ++ data), len := (s.len + req.len) % 2 ^ 64 }
  else .fault

/-- Function `lcast_cmd_handler`. -/
def lcast_cmd_handler (env : Env) (s : St) (c : Option Nat) (f : ws_frame_t) : Run Out := do
  let req ← lcast_frame_decode f
  let (s, payload) ←
    if f.opcode ≤ 2 then do
      let s ← stash_frame env s f req
      pure (s, s.stash)
    else pure (s, none)
  if f.fin then
    let (s, ev) ←
      match env.LCAST_OPCODES req.opcode with
      | some cmd => do
        let (_, s, ev) ← cmd.run env s c req payload
        pure (s, ev)
      | none => pure (s, ERRMSG LSD_ERROR_LIBRECAST_OPCODE_INVALID)
    pure (Ret.success, { s with stash := none }, ev)
  else pure (Ret.success, s, [])

/-- Function `lcast_handle_client_data`. -/
def lcast_handle_client_data (env : Env) (s : St) (c : Option Nat) (f : ws_frame_t) : Run Out :=
  if f.opcode = 0 then lcast_cmd_handler env s c f
  else if f.opcode = 1 then FAIL LSD_ERROR_NOT_IMPLEMENTED s
  else if f.opcode = 2 then lcast_cmd_handler env s c f
  else .done (Ret.success, s, [])

/-- Function `lcast_recv`. -/
def lcast_recv (env : Env) (s : St) (msg : lc_message_t) : Run (List Event) := do
  let opcode :=
    if msg.op = env.LC_OP_RET then env.LCAST_OP_CHANNEL_GETVAL
    else if msg.op = env.LC_OP_SET then env.LCAST_OP_CHANNEL_SETVAL
    else env.LCAST_OP_SOCKET_MSG
  let skip := if msg.op = env.LC_OP_RET then env.sizeof_lc_seq_t + env.sizeof_lc_rnd_t else 0
  let len := (msg.len + 2 ^ 64 - skip % 2 ^ 64) % 2 ^ 64 % 2 ^ 32
  let token := match lcast_socket_byid s msg.sockid with
    | some sk => sk.2.token
    | none => 0
  let req : lcast_frame_t :=
    { opcode := opcode, len := len, id := msg.sockid, id2 := 0, token := token,
      timestamp := msg.timestamp }
  lcast_frame_send s.websock req (some (msg.data.drop skip)) req.len

/-! ## Wire formats as the spec words them -/

/-- The two bytes of `n` in network order. -/
def be16 (n : Nat) : Bytes := [byte (n / 2 ^ 8), byte n]

/-- The four bytes of `n` in network order. -/
def be32 (n : Nat) : Bytes := [byte (n / 2 ^ 24), byte (n / 2 ^ 16), byte (n / 2 ^ 8), byte n]

/-- A query filter record `[filterOpcode:2][valueLength:4][value bytes]`. -/
def filter_record (op : Nat) (value : Bytes) : Bytes := be16 op ++ be32 value.length ++ value

/-- Reference parser of the `getmsg` filter list, following the spec: the payload is a
sequence of records `[filterOpcode:2][valueLength:4][value bytes]`; a KEY or DB
record gives a filter with the literal bytes, a record whose opcode has the TIME
bit gives a filter with the integer `conv value`; parsing stops at the first
record with another opcode and ignores what follows.  `none` when the payload is
not such a sequence (a record header or value is cut short).  The budget is the
number of records that may be read. -/
def spec_filters (env : Env) (conv : Bytes → Nat) : Nat → Bytes → Option (List (Nat × QVal))
  | 0, _ => none
  | fuel + 1, b =>
    if b.length = 0 then some []
    else if b.length < 6 then none
    else
      let op := be_val (b.take 2)
      let len := be_val ((b.drop 2).take 4)
      let value := (b.drop 6).take len
      if op = env.LC_QUERY_DB ∨ op = env.LC_QUERY_KEY then
        if 6 + len ≤ b.length then
          (spec_filters env conv fuel (b.drop (6 + len))).map (fun fs => (op, QVal.str value) :: fs)
        else none
      else if op &&& env.LC_QUERY_TIME = env.LC_QUERY_TIME then
        if 6 + len ≤ b.length then
          (spec_filters env conv fuel (b.drop (6 + len))).map
            (fun fs => (op, QVal.time (conv value)) :: fs)
        else none
      else some []

/-- States reachable from a state with an empty channel registry by `channel.new`
commands. -/
inductive ReachNew (env : Env) : St → Prop where
  | init (s : St) : s.lchan = [] → ReachNew env s
  | step (s : St) (c : Option Nat) (req : lcast_frame_t) (payload : Option Bytes) (out : Out) :
      ReachNew env s → lcast_cmd_channel_new env s c req payload = .done out →
      ReachNew env out.2.1

/-! ## A sample environment

The numeric protocol opcodes, query operations and message operations are sample
values (the headers that fix them are not among the sources).  The sample database
is empty and the sample query finds nothing. -/

/-- A sample opcode table. -/
def sampleOpcodes (op : Nat) : Option lcast_cmd :=
  if op = 1 then some .noop
  else if op = 3 then some .socket_new
  else if op = 6 then some .socket_listen
  else if op = 10 then some .channel_new
  else if op = 11 then some .channel_getmsg
  else if op = 12 then some .channel_getval
  else if op = 13 then some .channel_setval
  else if op = 14 then some .channel_bind
  else if op = 16 then some .channel_join
  else if op = 17 then some .channel_part
  else if op = 18 then some .channel_send
  else none

/-- A sample environment. -/
def sampleEnv : Env where
  LCAST_OPCODES := sampleOpcodes
  LCAST_OP_SOCKET_MSG := 9
  LCAST_OP_CHANNEL_GETVAL := 12
  LCAST_OP_CHANNEL_SETVAL := 13
  LC_QUERY_CHANNEL := 128
  LC_QUERY_DB := 256
  LC_QUERY_KEY := 512
  LC_QUERY_TIME := 16
  LC_OP_RET := 3
  LC_OP_SET := 5
  sizeof_lc_seq_t := 8
  sizeof_lc_rnd_t := 8
  lc_socket_get_id := fun n => n + 1
  lc_channel_get_id := fun n _ => n + 1
  lc_db_get := fun _ _ => none
  lc_query_new := 0
  lc_query_exec := fun _ => []
  uninit := fun _ => 0
  fuel := 64

/-- The sample environment, but with a library that cannot create a query (code 5). -/
def noQueryEnv : Env := { sampleEnv with lc_query_new := 5 }

/-- The name `mychannel`. -/
def mychannel : Bytes := [109, 121, 99, 104, 97, 110, 110, 101, 108]

/-- A transport frame carrying a protocol header and a payload. -/
def mkframe (fin : Bool) (wsop : Nat) (req : lcast_frame_t) (payload : Bytes) : ws_frame_t :=
  { fin := fin, opcode := wsop, data := frame_head req payload.length ++ payload }

/-- The state of a worker that has created one socket (id 1, listening with token 5)
and one channel (id 1, named `mychannel`). -/
def sampleSt : St :=
  { websock := some 1, keepalive_thread := true, lctx := true,
    lsock := [{ sock := 0, id := 1, token := 5 }],
    lchan := [{ chan := 0, id := 1, name := mychannel, freed := false }],
    stash := none, len := 0, nsock := 1, nchan := 1 }

/-- Feeding transport frames to `lcast_cmd_handler` one after the other: the final
state and all the calls made. -/
def feed (env : Env) (s : St) (c : Option Nat) : List ws_frame_t → Run (St × List Event)
  | [] => .done (s, [])
  | f :: fs => do
    let (_, s, ev) ← lcast_cmd_handler env s c f
    let (s, more) ← feed env s c fs
    pure (s, ev ++ more)

/-! ## Invariants of the channel registry -/

/-- No node of the list has been freed. -/
def live (l : List lcast_chan_t) : Prop := ∀ p ∈ l, p.freed = false

/-- No two nodes of the list have names that compare equal. -/
def distinct_names (l : List lcast_chan_t) : Prop :=
  l.Pairwise (fun p q => strcmp_eq p.name q.name = false)

/-- Invariant of the channel registry under `channel.new`. -/
def chan_inv (s : St) : Prop := live s.lchan ∧ distinct_names s.lchan

/-! ## The controller (`lsd.c`)

The controller process is modelled with its globals (`run`, `pid`, `handlers`,
`socks`), the two semaphores of the set `semid` and the `sem_op` field of
`sop[0]` as the state `Ctl`.  What the system calls return is input; the calls
made are recorded, in order, as a list of `Sys`.  A semaphore is a counter in
`Nat`; the limits of the kernel on its value and the width of `sem_op` are left
out (the counts are taken to stay in range).  Signals are taken to arrive between
two iterations of the capacity loop, or while the loop sleeps in `semop`. -/

/-- The constants that `lsd.c` takes from headers that are not among the sources. -/
structure Limits where
  HANDLER_MIN : Int
  HANDLER_MAX : Int
  LSD_ERROR_GETADDRINFO : Int
deriving DecidableEq, Repr

/-- A call of the controller into the system or into another module. -/
inductive Sys where
  | config_init
  | config_load_modules
  | config_unload_modules
  | config_close
  | getaddrinfo
  | socket
  | setsockopt (fd : Int)
  | bind (fd : Int)
  | listen (fd : Int)
  | freeaddrinfo
  | semget
  | semctl_setval
  | semctl_getval
  /-- the call `semop` on the semaphore `HANDLER_RDY` with the given `sem_op` -/
  | semop (op : Int)
  | signal
  | waitpid
  | fork
  | handler_start (n : Int)
  | handler_close
  | close (fd : Int)
  | free_socks
  /-- a message written by `ERROR`, `CONTINUE` or `FAILMSG` -/
  | log_error
deriving DecidableEq, Repr

/-- The globals of the controller, the two semaphores (`rdy` is `HANDLER_RDY`, the
ready-demand counter; `bsy` is `HANDLER_BSY`, the busy counter) and
`sop[0].sem_op`.  The array `socks` is the list of its elements, empty while the
pointer is NULL. -/
structure Ctl where
  run : Int
  pid : Int
  handlers : Int
  socks : List Int
  rdy : Nat
  bsy : Nat
  sem_op : Int
deriving DecidableEq, Repr

/-! ### `server_listen` -/

/-- One entry of the address list of `getaddrinfo`, with what the calls made on it
return. -/
structure addrinfo where
  socket : Int
  setsockopt : Int
  bind : Int
deriving DecidableEq, Repr

/-- One configured listener (a `proto_t` read from the configuration), with what the
calls made for it return: `stream` is `p->socktype == SOCK_STREAM`, `gai` the
return value of `getaddrinfo`, `ai` the address list it stores on success, `listen`
the return value of `listen`. -/
structure proto_t where
  stream : Bool
  gai : Int
  ai : List addrinfo
  listen : Int
deriving DecidableEq, Repr

/-- The body of the `for` loop of `server_listen` over the address list, entered with
`e == 0`: the value of `sock` when the loop is left, whether it was left by
`break` (then `a` is not NULL), and the calls made.  A failing `socket`,
`setsockopt` or `bind` goes on with the next address; `sock` keeps the last
descriptor `socket` returned. -/
def addr_loop : List addrinfo → Int → Int × Bool × List Sys
  | [], sock => (sock, false, [])
  | a :: rest, _ =>
    let sock := a.socket
    if sock = -1 then
      let r := addr_loop rest sock
      (r.1, r.2.1, Sys.socket :: r.2.2)
    else if a.setsockopt = -1 then
      let r := addr_loop rest sock
      (r.1, r.2.1, Sys.socket :: Sys.setsockopt sock :: r.2.2)
    else if a.bind = -1 then
      let r := addr_loop rest sock
      (r.1, r.2.1, Sys.socket :: Sys.setsockopt sock :: Sys.bind sock :: r.2.2)
    else (sock, true, [Sys.socket, Sys.setsockopt sock, Sys.bind sock])

/-- What `server_listen` hands back: its return value (`none` when `DIE` ended the
process), the array `socks`, the calls made. -/
structure ListenOut where
  ret : Option Int
  socks : List Int
  calls : List Sys
deriving DecidableEq, Repr

/-- The second `while` loop of `server_listen`, one listener per round.  The locals
`n`, `sock` and `a` (here: whether `a` is not NULL) are declared before the loop
and keep their values from one listener to the next.  A failing `getaddrinfo`
is taken to leave `a` as it was: with `a` NULL the `for` body is not entered,
with `a` left over from the listener before the body is entered and `FAILMSG`
returns the error code.  Modelled from the spec: `FAILMSG(code, ...)` writes a
message and returns `code`; `DIE(...)` writes a message and ends the process
(the two macros are in a header that is not among the sources). -/
def listen_loop (K : Limits) : List proto_t → Nat → Int → Bool → List Int → ListenOut
  | [], n, _, _, socks => ⟨some n, socks, []⟩
  | p :: rest, n, sock, a, socks =>
    if p.gai ≠ 0 ∧ a = true then
      ⟨some K.LSD_ERROR_GETADDRINFO, socks, [Sys.getaddrinfo, Sys.log_error]⟩
    else
      let r := if p.gai ≠ 0 then (sock, a, []) else addr_loop p.ai sock
      let sock := r.1
      let a := r.2.1
      let ev := Sys.getaddrinfo :: r.2.2 ++ [Sys.freeaddrinfo]
      if sock ≠ -1 then
        if p.stream then
          if p.listen = -1 then ⟨none, socks.set n sock, ev ++ [Sys.listen sock]⟩
          else
            let o := listen_loop K rest (n + 1) sock a (socks.set n sock)
            ⟨o.ret, o.socks, ev ++ [Sys.listen sock] ++ o.calls⟩
        else
          let o := listen_loop K rest (n + 1) sock a socks
          ⟨o.ret, o.socks, ev ++ o.calls⟩
      else
        let o := listen_loop K rest n sock a socks
        ⟨o.ret, o.socks, ev ++ o.calls⟩

/-- Function `server_listen` on the configured listeners: they are counted, `socks` is
allocated zeroed with one element per listener, and the listeners are tried in
turn with `n = 0`, `sock = -1` and `a = NULL`.  Without a listener the function
returns 0 and leaves `socks` NULL. -/
def server_listen (K : Limits) (ps : List proto_t) : ListenOut :=
  if ps.length = 0 then ⟨some 0, [], []⟩
  else listen_loop K ps 0 (-1) false (List.replicate ps.length 0)

/-! ### Signal handlers -/

/-- The loop `while (waitpid(-1, NULL, WNOHANG) > 0) --handlers;` when `k` children
have terminated. -/
def reap : Nat → Int → Int
  | 0, handlers => handlers
  | k + 1, handlers => reap k (handlers - 1)

/-- Function `sigchld_handler`, when `k` terminated children are waiting to be reaped. -/
def sigchld_handler (K : Limits) (k : Nat) (s : Ctl) : Ctl × List Sys :=
  let handlers := reap k s.handlers
  let ev := List.replicate (k + 1) Sys.waitpid
  if handlers < K.HANDLER_MIN then
    let n := K.HANDLER_MIN - handlers
    ({ s with handlers := handlers, rdy := ((s.rdy : Int) + n).toNat }, ev ++ [Sys.semop n])
  else ({ s with handlers := handlers }, ev)

/-- Function `sighup_handler`. -/
def sighup_handler (s : Ctl) : Ctl × List Sys :=
  if s.pid > 0 then (s, [Sys.config_init]) else (s, [])

/-- Function `sigint_handler`. -/
def sigint_handler (s : Ctl) : Ctl × List Sys :=
  if s.pid > 0 then ({ s with run := 0 }, []) else (s, [Sys.handler_close])

/-! ### The capacity loop of `main` -/

/-- How the call `semop(semid, sop, 1)` at the head of the loop ends: it returns 0, or
-1 with `errno == EINTR`, or -1 with another error. -/
inductive Wait where
  | ok
  | eintr
  | error
deriving DecidableEq, Repr

/-- What the system calls of one iteration return: the wait at the head of the loop,
whether `semctl(semid, HANDLER_BSY, GETVAL)` fails (returns -1), and `fork`. -/
structure IterIn where
  wait : Wait
  getval_fails : Bool
  fork : Int
deriving DecidableEq, Repr

/-- One iteration of `while (run)` in `main`: the new state, the calls made, and whether
the loop goes on (`false` after `break`).  `none` when the wait is said to
return 0 although the semaphore cannot take `sem_op`: the call sleeps.
Modelled from the spec: `CONTINUE(level, msg)` writes a message and goes on with
the next iteration.  In a child (`fork` returned 0) `handler_start(run)` is
called; what the child does afterwards is not followed. -/
def loop_iter (K : Limits) (i : IterIn) (s : Ctl) : Option (Ctl × List Sys × Bool) :=
  match i.wait with
  | .eintr => some (s, [Sys.semop s.sem_op], true)
  | .error => some (s, [Sys.semop s.sem_op], false)
  | .ok =>
    if (s.rdy : Int) + s.sem_op < 0 then none
    else
      let ev := [Sys.semop s.sem_op]
      let s := { s with rdy := ((s.rdy : Int) + s.sem_op).toNat }
      if s.handlers ≥ K.HANDLER_MAX then some (s, ev, true)
      else
        let busy : Int := if i.getval_fails then -1 else s.bsy
        if busy = -1 then some (s, ev ++ [Sys.semctl_getval, Sys.log_error], true)
        else if s.handlers - busy ≥ K.HANDLER_MIN then some (s, ev ++ [Sys.semctl_getval], true)
        else
          let s := { s with pid := i.fork }
          if i.fork = -1 then
            some ({ s with rdy := s.rdy + 1, sem_op := -1 },
              ev ++ [Sys.semctl_getval, Sys.fork, Sys.log_error, Sys.semop 1], true)
          else
            let s := { s with handlers := s.handlers + 1 }
            if i.fork = 0 then
              some (s, ev ++ [Sys.semctl_getval, Sys.fork, Sys.handler_start s.run], true)
            else some (s, ev ++ [Sys.semctl_getval, Sys.fork], true)

/-- What happens next to the controller while it is in the capacity loop. -/
inductive Tick where
  | iter (i : IterIn)
  | sigchld (k : Nat)
  | sighup
  | sigint
deriving DecidableEq, Repr

/-- The loop `while (run)` of `main` under a schedule of iterations and signals.  The
loop is left when `run` is 0 at its head or by `break`.  An iteration whose wait
sleeps changes nothing (the sleeping call is woken by the next signal).  A
schedule that ends while the loop is still running is `Run.nofuel`. -/
def main_loop (K : Limits) : List Tick → Ctl → Run (Ctl × List Sys)
  | [], s => if s.run = 0 then .done (s, []) else .nofuel
  | t :: rest, s =>
    if s.run = 0 then .done (s, [])
    else
      match t with
      | .iter i =>
        match loop_iter K i s with
        | none => main_loop K rest s
        | some (s1, ev, go) =>
          if go then do
            let (s2, more) ← main_loop K rest s1
            pure (s2, ev ++ more)
          else .done (s1, ev)
      | .sigchld k => do
        let (s1, ev) := sigchld_handler K k s
        let (s2, more) ← main_loop K rest s1
        pure (s2, ev ++ more)
      | .sighup => do
        let (s1, ev) := sighup_handler s
        let (s2, more) ← main_loop K rest s1
        pure (s2, ev ++ more)
      | .sigint => do
        let (s1, ev) := sigint_handler s
        let (s2, more) ← main_loop K rest s1
        pure (s2, ev ++ more)

/-- The loop `while (handlers) close(socks[handlers--]);` for a positive count: the
element at index `handlers` is read (undefined when the array has no such
element) and closed, then the count goes down by one. -/
def exit_close (socks : List Int) : Nat → Run (List Sys)
  | 0 => .done []
  | h + 1 =>
    match socks.get? (h + 1) with
    | none => .fault
    | some fd => do
      let more ← exit_close socks h
      pure (Sys.close fd :: more)

/-- The code behind the label `exit_controller` of `main`.  With a negative count the
loop reads in front of the array. -/
def exit_controller (s : Ctl) : Run (Ctl × List Sys) :=
  if s.handlers < 0 then .fault
  else do
    let ev ← exit_close s.socks s.handlers.toNat
    pure ({ s with handlers := 0 },
      ev ++ [Sys.free_socks, Sys.config_unload_modules, Sys.config_close])

/-- How the controller process ends: with an exit status, or in `DIE`. -/
inductive Exit where
  | status (n : Int)
  | die
deriving DecidableEq, Repr

/-- What `main` gets from outside: the return value of `config_init` and the value it
leaves in `run` (1 after the command `start`), the configured listeners, the
return values of `semget` and of the two `semctl(..., SETVAL, ...)`, and the
schedule of the capacity loop. -/
structure MainIn where
  config_init : Int
  start : Int
  protos : List proto_t
  semget : Int
  setval_rdy : Int
  setval_bsy : Int
  ticks : List Tick
deriving DecidableEq, Repr

/-- Function `main` of the controller.  Modelled from the spec: the globals `pid`,
`handlers` and `socks` are declared in a header that is not among the sources;
they start as 0 and NULL, as objects of static storage do.
`error_at_line(1, ...)` ends the process with status 1. -/
def main (K : Limits) (inp : MainIn) : Run (Exit × List Sys) :=
  if inp.config_init ≠ 0 then .done (Exit.status inp.config_init, [Sys.config_init])
  else
    let s : Ctl :=
      { run := inp.start, pid := 0, handlers := 0, socks := [], rdy := 0, bsy := 0, sem_op := 0 }
    if s.run = 0 then do
      let (_, ev) ← exit_controller s
      pure (Exit.status 0, [Sys.config_init] ++ ev)
    else
      let r := server_listen K inp.protos
      let pre := [Sys.config_init, Sys.config_load_modules] ++ r.calls
      match r.ret with
      | none => .done (Exit.die, pre)
      | some n =>
        let s := { s with run := n, socks := r.socks }
        if n = 0 then do
          let (_, ev) ← exit_controller s
          pure (Exit.status 0, pre ++ ev)
        else if inp.semget = -1 then .done (Exit.die, pre ++ [Sys.semget])
        else if inp.setval_rdy = -1 then
          .done (Exit.status 1, pre ++ [Sys.semget, Sys.semctl_setval])
        else if inp.setval_bsy = -1 then
          .done (Exit.status 1, pre ++ [Sys.semget, Sys.semctl_setval, Sys.semctl_setval])
        else do
          let s := { s with rdy := K.HANDLER_MIN.toNat, bsy := 0, sem_op := -1 }
          let (s, ev) ← main_loop K inp.ticks s
          let (_, ev2) ← exit_controller s
          pure (Exit.status 0,
            pre ++ [Sys.semget, Sys.semctl_setval, Sys.semctl_setval,
                    Sys.signal, Sys.signal, Sys.signal] ++ ev ++ ev2)

/-- The states of the controller in the capacity loop over which the bound on the worker
count is stated: the state in which the loop is entered (no worker, the
ready-demand counter at `HANDLER_MIN`, the wait a decrement by one), followed by
any interleaving of iterations in which the busy counter is read and `fork`
succeeds in the controller, and of `SIGCHLD` deliveries that reap at most as many
children as there are workers.  Modelled from the spec: the workers (their
code is not among the sources) raise and lower the busy counter and post demand
on the ready-demand counter. -/
inductive CtlReach (K : Limits) : Ctl → Prop where
  | init (s : Ctl) : s.handlers = 0 → s.rdy = K.HANDLER_MIN.toNat → s.sem_op = -1 → CtlReach K s
  | iter (s : Ctl) (i : IterIn) (out : Ctl × List Sys × Bool) :
      CtlReach K s → i.getval_fails = false → 0 < i.fork → loop_iter K i s = some out →
      CtlReach K out.1
  | sigchld (s : Ctl) (k : Nat) :
      CtlReach K s → (k : Int) ≤ s.handlers → CtlReach K (sigchld_handler K k s).1
  | busy (s : Ctl) (b : Nat) : CtlReach K s → CtlReach K { s with bsy := b }
  | demand (s : Ctl) (n : Nat) : CtlReach K s → CtlReach K { s with rdy := s.rdy + n }

/-- Sample limits: at least one worker, at most two. -/
def sampleLimits : Limits := { HANDLER_MIN := 1, HANDLER_MAX := 2, LSD_ERROR_GETADDRINFO := 9 }

/-- The state in which the capacity loop is entered under `sampleLimits` with two
stream listeners on the descriptors 3 and 4. -/
def sampleCtl : Ctl :=
  { run := 2, pid := 0, handlers := 0, socks := [3, 4], rdy := 1, bsy := 0, sem_op := -1 }

/-- The sample environment with uninitialised memory that reads as the byte `0xAA`. -/
def junkEnv : Env := { sampleEnv with uninit := fun _ => 170 }

/-- The sample environment with a query that finds two messages, the first with a zero
byte in its data. -/
def replayEnv : Env :=
  { sampleEnv with
    lc_query_exec := fun _ => [⟨1700000000, [97, 0, 98]⟩, ⟨1700000001, [104, 105]⟩] }

/-- The payload a data frame carries for `lcast_cmd_handler`: the `req->len` bytes behind
the protocol header, when the header decodes and the frame holds that many. -/
def frame_payload (f : ws_frame_t) : Option Bytes :=
  match lcast_frame_decode f with
  | .done req =>
    if sizeof_lcast_frame_t + req.len ≤ f.data.length then
      some ((f.data.drop sizeof_lcast_frame_t).take req.len)
    else none
  | _ => none

/-! # Theorems -/

set_option maxRecDepth 8000

/-! ## Byte order -/


theorem ntohl_le_val (a b c d : Byte) : ntohl (le_val [a, b, c, d]) = be_val [a, b, c, d] := by
  simp only [ntohl, bswap32, le_val, be_val, List.length]
  omega

theorem le_val_le_bytes_one (x : Nat) : le_val (le_bytes 1 x) = x % 256 := by
  simp [le_val, le_bytes, byte]

theorem le_val_le_bytes_four (x : Nat) : le_val (le_bytes 4 x) = x % 2 ^ 32 := by
  simp only [le_val, le_bytes, byte]
  omega

theorem bswap32_digits (a b c d : Nat) (ha : a < 256) (hb : b < 256) (hc : c < 256)
    (hd : d < 256) :
    bswap32 (a * 2 ^ 24 + b * 2 ^ 16 + c * 2 ^ 8 + d) = d * 2 ^ 24 + c * 2 ^ 16 + b * 2 ^ 8 + a := by
  simp only [bswap32]
  omega

theorem bswap32_lt (x : Nat) : bswap32 x < 2 ^ 32 := by
  simp only [bswap32]
  omega

theorem bswap32_bswap32 (n : Nat) (h : n < 2 ^ 32) : bswap32 (bswap32 n) = n := by
  have h1 : bswap32 n = n % 256 * 2 ^ 24 + n / 2 ^ 8 % 256 * 2 ^ 16 + n / 2 ^ 16 % 256 * 2 ^ 8
      + n / 2 ^ 24 % 256 := rfl
  rw [h1, bswap32_digits _ _ _ _ (Nat.mod_lt _ (by decide)) (Nat.mod_lt _ (by decide))
    (Nat.mod_lt _ (by decide)) (Nat.mod_lt _ (by decide))]
  clear h1
  simp only [Nat.reducePow] at h ⊢
  omega

theorem ntohl_htonl_bytes (n : Nat) (h : n < 2 ^ 32) :
    ntohl (le_val (le_bytes 4 (htonl n))) = n := by
  rw [le_val_le_bytes_four]
  simp only [ntohl, htonl]
  rw [Nat.mod_eq_of_lt h, Nat.mod_eq_of_lt (bswap32_lt n), Nat.mod_eq_of_lt (bswap32_lt n),
    bswap32_bswap32 n h]

theorem length_le_bytes (w n : Nat) : (le_bytes w n).length = w := by
  induction w generalizing n with
  | zero => rfl
  | succ w ih => simp [le_bytes, ih]

theorem length_frame_head (req : lcast_frame_t) (n : Nat) :
    (frame_head req n).length = sizeof_lcast_frame_t := by
  simp [frame_head, length_le_bytes, sizeof_lcast_frame_t]

theorem le_val_singleton (b : Byte) : le_val [b] = b.val := by simp [le_val]

theorem decode_cons (fin : Bool) (op : Nat)
    (b0 l0 l1 l2 l3 i0 i1 i2 i3 j0 j1 j2 j3 t0 t1 t2 t3 : Byte) (rest : Bytes) :
    lcast_frame_decode ⟨fin, op,
      b0 :: l0 :: l1 :: l2 :: l3 :: i0 :: i1 :: i2 :: i3 :: j0 :: j1 :: j2 :: j3
        :: t0 :: t1 :: t2 :: t3 :: rest⟩
    = .done { opcode := b0.val, len := be_val [l0, l1, l2, l3], id := be_val [i0, i1, i2, i3],
              id2 := be_val [j0, j1, j2, j3], token := be_val [t0, t1, t2, t3],
              timestamp := 0 } := by
  simp [lcast_frame_decode, rd, bind, Run.bind, pure, ntohl_le_val, le_val_singleton]

theorem decode_le_bytes (fin : Bool) (op a b c d e : Nat) (rest : Bytes) :
    lcast_frame_decode ⟨fin, op,
      le_bytes 1 a ++ le_bytes 4 b ++ le_bytes 4 c ++ le_bytes 4 d ++ le_bytes 4 e ++ rest⟩
    = .done { opcode := a % 256, len := ntohl b, id := ntohl c, id2 := ntohl d,
              token := ntohl e, timestamp := 0 } := by
  have hb := le_val_le_bytes_four b
  have hc := le_val_le_bytes_four c
  have hd := le_val_le_bytes_four d
  have he := le_val_le_bytes_four e
  simp only [le_bytes, List.cons_append, List.nil_append] at hb hc hd he ⊢
  rw [decode_cons]
  simp only [← ntohl_le_val, hb, hc, hd, he]
  simp [ntohl, byte]

theorem exists_header (l : Bytes) (h : 17 ≤ l.length) :
    ∃ b0 l0 l1 l2 l3 i0 i1 i2 i3 j0 j1 j2 j3 t0 t1 t2 t3 rest,
      l = b0 :: l0 :: l1 :: l2 :: l3 :: i0 :: i1 :: i2 :: i3 :: j0 :: j1 :: j2 :: j3
        :: t0 :: t1 :: t2 :: t3 :: rest := by
  have step : ∀ (l : Bytes) (n : Nat), n + 1 ≤ l.length →
      ∃ b rest, l = b :: rest ∧ n ≤ rest.length := by
    intro l n hl
    cases l with
    | nil => simp at hl
    | cons b rest => exact ⟨b, rest, rfl, by simpa using hl⟩
  obtain ⟨b0, r0, rfl, q0⟩ := step l 16 h
  obtain ⟨l0, r1, rfl, q1⟩ := step r0 15 q0
  obtain ⟨l1, r2, rfl, q2⟩ := step r1 14 q1
  obtain ⟨l2, r3, rfl, q3⟩ := step r2 13 q2
  obtain ⟨l3, r4, rfl, q4⟩ := step r3 12 q3
  obtain ⟨i0, r5, rfl, q5⟩ := step r4 11 q4
  obtain ⟨i1, r6, rfl, q6⟩ := step r5 10 q5
  obtain ⟨i2, r7, rfl, q7⟩ := step r6 9 q6
  obtain ⟨i3, r8, rfl, q8⟩ := step r7 8 q7
  obtain ⟨j0, r9, rfl, q9⟩ := step r8 7 q8
  obtain ⟨j1, r10, rfl, q10⟩ := step r9 6 q9
  obtain ⟨j2, r11, rfl, q11⟩ := step r10 5 q10
  obtain ⟨j3, r12, rfl, q12⟩ := step r11 4 q11
  obtain ⟨t0, r13, rfl, q13⟩ := step r12 3 q12
  obtain ⟨t1, r14, rfl, q14⟩ := step r13 2 q13
  obtain ⟨t2, r15, rfl, q15⟩ := step r14 1 q14
  obtain ⟨t3, r16, rfl, q16⟩ := step r15 0 q15
  exact ⟨b0, l0, l1, l2, l3, i0, i1, i2, i3, j0, j1, j2, j3, t0, t1, t2, t3, r16, rfl⟩


/-! ## C1, C2: the frame codec -/

/-- C1: a frame sent by `lcast_frame_send` with a payload of length n, then decoded by
`lcast_frame_decode`, has the opcode, id, id2 and token that were sent, len = n
whatever `req->len` was, and timestamp 0 whatever timestamp was sent; the bytes
sent are the packed 25-byte header followed by the payload. -/
theorem frame_send_decode_roundtrip (c : Option Nat) (req : lcast_frame_t) (payload : Bytes)
    (fin : Bool) (wsop : Nat)
    (hop : req.opcode < 256) (hid : req.id < 2 ^ 32) (hid2 : req.id2 < 2 ^ 32)
    (htok : req.token < 2 ^ 32) (hn : payload.length < 2 ^ 32) :
    lcast_frame_send c req (some payload) payload.length
        = .done [Event.ws_send c WS_OPCODE_BINARY (frame_head req payload.length ++ payload)]
      ∧ (frame_head req payload.length).length = 25
      ∧ lcast_frame_decode ⟨fin, wsop, frame_head req payload.length ++ payload⟩
        = .done { opcode := req.opcode, len := payload.length, id := req.id, id2 := req.id2,
                  token := req.token, timestamp := 0 } := by
  refine ⟨?_, length_frame_head _ _, ?_⟩
  · by_cases h0 : payload.length = 0
    · have : payload = [] := List.length_eq_zero.mp h0
      subst this
      simp [lcast_frame_send, rd, bind, Run.bind, pure]
    · have hpos : 0 < payload.length := Nat.pos_of_ne_zero h0
      simp [lcast_frame_send, rd, bind, Run.bind, pure, h0, hpos]
  · simp only [frame_head, List.append_assoc]
    have := decode_le_bytes fin wsop req.opcode (htonl payload.length) (htonl req.id)
      (htonl req.id2) (htonl req.token) (le_bytes 8 (htobe64 req.timestamp) ++ payload)
    simp only [List.append_assoc] at this
    rw [this]
    have e1 : ∀ n, n < 2 ^ 32 → ntohl (htonl n) = n := by
      intro n hn
      simp only [ntohl, htonl]
      rw [Nat.mod_eq_of_lt hn, Nat.mod_eq_of_lt (bswap32_lt n), bswap32_bswap32 n hn]
    rw [e1 _ hn, e1 _ hid, e1 _ hid2, e1 _ htok, Nat.mod_eq_of_lt hop]


/-- C1 at the example of the spec: `channel.new` (sample opcode 10) with token 42 and payload
`mychannel` decodes to len 9, token 42, timestamp 0. -/
theorem frame_send_decode_roundtrip_witness :
    lcast_frame_decode ⟨true, 2, frame_head ⟨10, 0, 0, 0, 42, 1700000000⟩ 9 ++ mychannel⟩
      = .done ⟨10, 9, 0, 0, 42, 0⟩ :=
  (frame_send_decode_roundtrip (some 1) ⟨10, 0, 0, 0, 42, 1700000000⟩ mychannel true 2
    (by decide) (by decide) (by decide) (by decide) (by decide)).2.2

/-- C2: for an input of at least 17 bytes `lcast_frame_decode` returns opcode = byte 0,
len, id, id2, token = the big-endian 32-bit numbers at bytes 1..4, 5..8, 9..12,
13..16 and timestamp 0; two inputs that agree on their first 17 bytes decode alike. -/
theorem frame_decode_header (f : ws_frame_t) (h : 17 ≤ f.data.length) :
    lcast_frame_decode f
        = .done { opcode := (f.data.getD 0 0).val
                  len := be_val ((f.data.drop 1).take 4)
                  id := be_val ((f.data.drop 5).take 4)
                  id2 := be_val ((f.data.drop 9).take 4)
                  token := be_val ((f.data.drop 13).take 4)
                  timestamp := 0 }
      ∧ ∀ g : ws_frame_t, g.data.take 17 = f.data.take 17 →
          lcast_frame_decode g = lcast_frame_decode f := by
  obtain ⟨fin, op, data⟩ := f
  obtain ⟨b0, l0, l1, l2, l3, i0, i1, i2, i3, j0, j1, j2, j3, t0, t1, t2, t3, rest, rfl⟩ :=
    exists_header data h
  constructor
  · rw [decode_cons]; simp
  · intro g hg
    obtain ⟨gfin, gop, gdata⟩ := g
    have hlen : 17 ≤ gdata.length := by
      have := congrArg List.length hg
      simp at this
      omega
    obtain ⟨b0', l0', l1', l2', l3', i0', i1', i2', i3', j0', j1', j2', j3', t0', t1', t2', t3',
      rest', rfl⟩ := exists_header gdata hlen
    simp at hg
    obtain ⟨rfl, rfl, rfl, rfl, rfl, rfl, rfl, rfl, rfl, rfl, rfl, rfl, rfl, rfl, rfl, rfl, rfl⟩ := hg
    rw [decode_cons, decode_cons]

/-- C2 at a 17-byte header followed by two more bytes. -/
theorem frame_decode_header_witness :
    lcast_frame_decode ⟨false, 0, [7, 0, 0, 1, 2, 0, 0, 0, 3, 0, 0, 0, 4, 0, 0, 0, 5, 99, 98]⟩
      = .done ⟨7, 258, 3, 4, 5, 0⟩ :=
  (frame_decode_header ⟨false, 0, [7, 0, 0, 1, 2, 0, 0, 0, 3, 0, 0, 0, 4, 0, 0, 0, 5, 99, 98]⟩
    (by decide)).1

/-! ## Reading buffers -/

theorem rd_mid (a b c : Bytes) : rd (some (a ++ b ++ c)) a.length b.length = .done b := by
  unfold rd
  by_cases h : b.length = 0
  · have : b = [] := List.length_eq_zero.mp h
    simp [this]
  · simp [h]

theorem rd_take (buf : Bytes) (n : Nat) (h : n ≤ buf.length) :
    rd (some buf) 0 n = .done (buf.take n) := by
  unfold rd
  by_cases h0 : n = 0
  · simp [h0]
  · simp [h0, h]


theorem be32toh_le_val (a b c d : Byte) : be32toh (le_val [a, b, c, d]) = be_val [a, b, c, d] := by
  simp only [be32toh, bswap32, le_val, be_val, List.length]
  omega

theorem be16toh_le_val (a b : Byte) : be16toh (le_val [a, b]) = be_val [a, b] := by
  simp only [be16toh, bswap16, le_val, be_val, List.length]
  omega

theorem be_val_be32 (n : Nat) (h : n < 2 ^ 32) : be_val (be32 n) = n := by
  simp only [be_val, be32, byte, List.length]
  simp only [Nat.reducePow, Nat.reduceAdd] at h ⊢
  omega

theorem be_val_be16 (n : Nat) (h : n < 2 ^ 16) : be_val (be16 n) = n := by
  simp only [be_val, be16, byte, List.length]
  simp only [Nat.reducePow, Nat.reduceAdd] at h ⊢
  omega

theorem be32toh_be32 (n : Nat) (h : n < 2 ^ 32) : be32toh (le_val (be32 n)) = n := by
  rw [be32, be32toh_le_val, ← be32, be_val_be32 n h]

theorem be16toh_be16 (n : Nat) (h : n < 2 ^ 16) : be16toh (le_val (be16 n)) = n := by
  rw [be16, be16toh_le_val, ← be16, be_val_be16 n h]

/-- C5: a `channel.setval` request on a registered channel whose payload is the
big-endian 32-bit length of `k`, then `k`, then `v`, with frame length
`4 + |k| + |v|`, is parsed into key `k` and value `v`; exactly that pair is written
to the local cache (`lc_db_set`) and propagated (`lc_channel_setval`), the state is
unchanged and no frame is sent. -/
theorem setval_parse (s : St) (req : lcast_frame_t) (k v : Bytes) (i : Nat) (ch : lcast_chan_t)
    (hreg : lcast_channel_byid s req.id = .done (some (i, ch)))
    (hlen : req.len = 4 + k.length + v.length) (hfit : req.len < 2 ^ 32) :
    lcast_cmd_channel_setval s req (some (be32 k.length ++ k ++ v))
      = .done (Ret.success, s,
          [Event.lc_db_set ch.chan k v, Event.lc_channel_setval ch.chan k v]) := by
  have hk : k.length < 2 ^ 32 := by omega
  have h1 : rd (some (be32 k.length ++ k ++ v)) 0 4 = .done (be32 k.length) := by
    have := rd_mid [] (be32 k.length) (k ++ v)
    simpa [be32] using this
  have h2 : rd (some (be32 k.length ++ k ++ v)) 4 k.length = .done k := by
    have := rd_mid (be32 k.length) k v
    simpa [be32] using this
  have h3 : rd (some (be32 k.length ++ k ++ v)) (4 + k.length) v.length = .done v := by
    have := rd_mid (be32 k.length ++ k) v []
    have e : (be32 k.length ++ k).length = 4 + k.length := by simp [be32]; omega
    rw [e, List.append_nil] at this
    exact this
  have h4 : (req.len + 2 * 2 ^ 64 - k.length - 4) % 2 ^ 64 = v.length := by
    simp only [Nat.reducePow] at hfit ⊢
    omega
  simp only [lcast_cmd_channel_setval, hreg, Option.isNone_some, be32toh_be32 _ hk, h1, h2, h3, h4,
    bind, Run.bind, pure]
  simp

/-- C5 at the example of the spec: `[0,0,0,3]`, then `key`, then `value123`. -/
theorem setval_parse_witness :
    lcast_cmd_channel_setval sampleSt ⟨13, 15, 1, 0, 0, 0⟩
        (some (be32 3 ++ [107, 101, 121] ++ [118, 97, 108, 117, 101, 49, 50, 51]))
      = .done (Ret.success, sampleSt,
          [Event.lc_db_set 0 [107, 101, 121] [118, 97, 108, 117, 101, 49, 50, 51],
           Event.lc_channel_setval 0 [107, 101, 121] [118, 97, 108, 117, 101, 49, 50, 51]]) :=
  setval_parse sampleSt ⟨13, 15, 1, 0, 0, 0⟩ [107, 101, 121]
    [118, 97, 108, 117, 101, 49, 50, 51] 0 ⟨0, 1, mychannel, false⟩ (by decide) (by decide)
    (by decide)

/-! ## The channel registry -/


theorem byname_from_live (l : List lcast_chan_t) (name : Bytes) (hl : live l) (i : Nat) :
    (lcast_channel_byname_from i l name = .done none ∧ ∀ p ∈ l, strcmp_eq p.name name = false)
    ∨ ∃ j p, lcast_channel_byname_from i l name = .done (some (j, p)) ∧ p ∈ l
        ∧ strcmp_eq p.name name = true := by
  induction l generalizing i with
  | nil => left; simp [lcast_channel_byname_from]
  | cons q rest ih =>
    have hq : q.freed = false := hl q (List.mem_cons_self _ _)
    have hrest : live rest := fun p hp => hl p (List.mem_cons_of_mem _ hp)
    by_cases hm : strcmp_eq q.name name = true
    · right
      exact ⟨i, q, by simp [lcast_channel_byname_from, hq, hm], List.mem_cons_self _ _, hm⟩
    · have hm' : strcmp_eq q.name name = false := by simpa using hm
      rcases ih hrest (i + 1) with ⟨h1, h2⟩ | ⟨j, p, h1, h2, h3⟩
      · left
        refine ⟨by simp [lcast_channel_byname_from, hq, hm', h1], ?_⟩
        intro p hp
        rcases List.mem_cons.mp hp with rfl | hp
        · exact hm'
        · exact h2 p hp
      · right
        exact ⟨j, p, by simp [lcast_channel_byname_from, hq, hm', h1], List.mem_cons_of_mem _ h2, h3⟩

theorem strcmp_eq_iff (a b : Bytes) : strcmp_eq a b = true ↔ cstr a = cstr b := by
  simp [strcmp_eq]

theorem strcmp_eq_false_iff (a b : Bytes) : strcmp_eq a b = false ↔ cstr a ≠ cstr b := by
  simp [strcmp_eq]

theorem distinct_names_unique (l : List lcast_chan_t) (hd : distinct_names l) (name : Bytes)
    (p q : lcast_chan_t) (hp : p ∈ l) (hq : q ∈ l) (h1 : strcmp_eq p.name name = true)
    (h2 : strcmp_eq q.name name = true) : p = q := by
  by_contra hne
  have hsymm : Symmetric (fun p q : lcast_chan_t => strcmp_eq p.name q.name = false) := by
    intro a b hab
    rw [strcmp_eq_false_iff] at hab ⊢
    exact fun h => hab h.symm
  have := List.Pairwise.forall hsymm hd hp hq hne
  rw [strcmp_eq_false_iff] at this
  rw [strcmp_eq_iff] at h1 h2
  exact this (h1.trans h2.symm)

theorem distinct_names_count (l : List lcast_chan_t) (hd : distinct_names l) (name : Bytes)
    (p : lcast_chan_t) (hp : p ∈ l) (h1 : strcmp_eq p.name name = true) :
    (l.filter (fun q => strcmp_eq q.name name)).length = 1 := by
  induction l with
  | nil => simp at hp
  | cons a rest ih =>
    have hd' := List.pairwise_cons.mp hd
    by_cases ha : strcmp_eq a.name name = true
    · have hnone : ∀ q ∈ rest, strcmp_eq q.name name = false := by
        intro q hq
        have := hd'.1 q hq
        rw [strcmp_eq_false_iff] at this ⊢
        rw [strcmp_eq_iff] at ha
        exact fun h => this (ha.trans h.symm)
      have : rest.filter (fun q => strcmp_eq q.name name) = [] := by
        rw [List.filter_eq_nil_iff]
        intro q hq
        simp [hnone q hq]
      simp [List.filter_cons, ha, this]
    · have hp' : p ∈ rest := by
        rcases List.mem_cons.mp hp with rfl | h
        · exact absurd h1 ha
        · exact h
      simp [List.filter_cons, ha, ih hd'.2 hp']

theorem channel_new_fresh (env : Env) (s : St) (name : Bytes)
    (h1 : lcast_channel_byname_from 0 s.lchan name = .done none) :
    lcast_channel_new env s name
      = .done ({ chan := s.nchan, id := env.lc_channel_get_id s.nchan name % 2 ^ 32,
                 name := name, freed := false },
               { (lcast_init s).1 with
                 lchan := s.lchan ++ [{ chan := s.nchan,
                                        id := env.lc_channel_get_id s.nchan name % 2 ^ 32,
                                        name := name, freed := false }],
                 nchan := s.nchan + 1 },
               (lcast_init s).2 ++ [Event.lc_channel_new s.nchan name]) := by
  simp [lcast_channel_new, lcast_init, h1, bind, Run.bind, pure]

theorem channel_new_found (env : Env) (s : St) (name : Bytes) (j : Nat) (p : lcast_chan_t)
    (h1 : lcast_channel_byname_from 0 s.lchan name = .done (some (j, p))) :
    lcast_channel_new env s name = .done (p, (lcast_init s).1, (lcast_init s).2) := by
  simp [lcast_channel_new, lcast_init, h1, bind, Run.bind, pure]

theorem channel_new_spec (env : Env) (s : St) (name : Bytes) (hi : chan_inv s) :
    ∃ ch s1 ev, lcast_channel_new env s name = .done (ch, s1, ev)
      ∧ chan_inv s1 ∧ ch ∈ s1.lchan ∧ strcmp_eq ch.name name = true
      ∧ s1.lctx = true ∧ s1.keepalive_thread = true
      ∧ (s.lctx = true → s.keepalive_thread = true → ch ∈ s.lchan →
          s1 = s ∧ ev = [Event.lc_db_open]) := by
  obtain ⟨hl, hd⟩ := hi
  rcases byname_from_live s.lchan name hl 0 with ⟨h1, h2⟩ | ⟨j, p, h1, h2, h3⟩
  · refine ⟨_, _, _, channel_new_fresh env s name h1, ⟨?_, ?_⟩, ?_, ?_, rfl, rfl, ?_⟩
    · intro p hp
      simp [lcast_init] at hp
      rcases hp with hp | rfl
      · exact hl p hp
      · rfl
    · simp only [distinct_names, lcast_init]
      rw [List.pairwise_append]
      refine ⟨hd, by simp, ?_⟩
      intro a ha b hb
      simp at hb
      subst hb
      exact h2 a ha
    · simp [lcast_init]
    · simp [strcmp_eq]
    · intro _ _ hmem
      have := h2 _ hmem
      simp [strcmp_eq] at this
  · refine ⟨p, _, _, channel_new_found env s name j p h1, ⟨hl, hd⟩, h2, h3, rfl, rfl, ?_⟩
    intro h4 h5 _
    obtain ⟨w, k, x, ls, lc, st, ln, ns, nc⟩ := s
    simp at h4 h5
    subst h4 h5
    simp [lcast_init]

theorem frame_send_empty (c : Option Nat) (req : lcast_frame_t) :
    lcast_frame_send c req none 0 = .done [Event.ws_send c WS_OPCODE_BINARY (frame_head req 0)] := by
  simp [lcast_frame_send, bind, Run.bind, pure]

theorem cmd_channel_new_eq (env : Env) (s : St) (c : Option Nat) (req : lcast_frame_t)
    (payload : Option Bytes) (name : Bytes) (ch : lcast_chan_t) (s1 : St) (ev : List Event)
    (hfit : req.len + 1 < 2 ^ 32) (hrd : rd payload 0 req.len = .done name)
    (hnew : lcast_channel_new env s name = .done (ch, s1, ev)) :
    lcast_cmd_channel_new env s c req payload
      = .done (Ret.success, s1,
          ev ++ [Event.ws_send c WS_OPCODE_BINARY (frame_head { req with id := ch.id } 0)]) := by
  have h : ¬ (req.len + 1) % 2 ^ 32 < req.len := by
    rw [Nat.mod_eq_of_lt hfit]; omega
  simp only [lcast_cmd_channel_new, h, if_false, hrd, hnew, frame_send_empty, bind, Run.bind, pure]

theorem cmd_channel_new_inv (env : Env) (s : St) (c : Option Nat) (req : lcast_frame_t)
    (payload : Option Bytes) (out : Out) (hi : chan_inv s)
    (h : lcast_cmd_channel_new env s c req payload = .done out) : chan_inv out.2.1 := by
  unfold lcast_cmd_channel_new at h
  split at h
  · cases h
  · cases hrd : rd payload 0 req.len with
    | fault => simp [hrd, bind, Run.bind] at h
    | nofuel => simp [hrd, bind, Run.bind] at h
    | done name =>
      obtain ⟨ch, s1, ev, hnew, hinv, -⟩ := channel_new_spec env s name hi
      simp [hrd, hnew, frame_send_empty, bind, Run.bind, pure] at h
      subst h
      exact hinv

theorem reach_inv (env : Env) (s : St) (h : ReachNew env s) : chan_inv s := by
  induction h with
  | init s h0 => simp [chan_inv, live, distinct_names, h0]
  | step s c req payload out _ hcmd ih => exact cmd_channel_new_inv env s c req payload out ih hcmd

theorem init_started (s : St) (h1 : s.lctx = true) (h2 : s.keepalive_thread = true) :
    lcast_init s = (s, [Event.lc_db_open]) := by
  obtain ⟨w, k, x, ls, lc, st, ln, ns, nc⟩ := s
  simp at h1 h2
  subst h1 h2
  simp [lcast_init]

/-- C4: in a state reached from an empty channel registry by `channel.new` commands, two
`channel.new` requests carrying the same name (the first `req->len` bytes of the
payload) are both answered with the id of one and the same node `ch`, the node
that `lcast_channel_new` returns both times; the second request leaves the state
as the first left it (no entry is added, the library is not asked for a
channel), and the registry then holds exactly one node whose name compares equal
to the requested name. -/
theorem channel_new_idempotent (env : Env) (s : St) (c1 c2 : Option Nat)
    (req1 req2 : lcast_frame_t) (payload : Bytes)
    (hr : ReachNew env s) (hlen : req2.len = req1.len) (hfit : req1.len + 1 < 2 ^ 32)
    (hpay : req1.len ≤ payload.length) :
    ∃ ch s1 ev1,
      lcast_cmd_channel_new env s c1 req1 (some payload)
        = .done (Ret.success, s1,
            ev1 ++ [Event.ws_send c1 WS_OPCODE_BINARY (frame_head { req1 with id := ch.id } 0)])
      ∧ lcast_cmd_channel_new env s1 c2 req2 (some payload)
        = .done (Ret.success, s1,
            [Event.lc_db_open,
             Event.ws_send c2 WS_OPCODE_BINARY (frame_head { req2 with id := ch.id } 0)])
      ∧ lcast_channel_new env s (payload.take req1.len) = .done (ch, s1, ev1)
      ∧ lcast_channel_new env s1 (payload.take req1.len) = .done (ch, s1, [Event.lc_db_open])
      ∧ ch ∈ s1.lchan
      ∧ (s1.lchan.filter (fun p => strcmp_eq p.name (payload.take req1.len))).length = 1 := by
  have hi := reach_inv env s hr
  have hrd := rd_take payload req1.len hpay
  obtain ⟨ch, s1, ev1, hnew, hinv, hmem, hname, hctx, hka, -⟩ :=
    channel_new_spec env s (payload.take req1.len) hi
  have hinit : lcast_init s1 = (s1, [Event.lc_db_open]) := init_started s1 hctx hka
  rcases byname_from_live s1.lchan (payload.take req1.len) hinv.1 0 with ⟨-, h2⟩ | ⟨j, p, h1, h2, h3⟩
  · have := h2 ch hmem
    rw [hname] at this
    cases this
  · have hp : p = ch :=
      distinct_names_unique s1.lchan hinv.2 (payload.take req1.len) p ch h2 hmem h3 hname
    subst hp
    have hnew2 := channel_new_found env s1 (payload.take req1.len) j p h1
    rw [hinit] at hnew2
    refine ⟨p, s1, ev1, cmd_channel_new_eq env s c1 req1 (some payload) _ p s1 ev1 hfit hrd hnew,
      ?_, hnew, hnew2, hmem, distinct_names_count s1.lchan hinv.2 _ p hmem hname⟩
    have := cmd_channel_new_eq env s1 c2 req2 (some payload) _ p s1 [Event.lc_db_open]
      (by rw [hlen]; exact hfit) (by rw [hlen]; exact hrd) hnew2
    simpa using this

/-- C4 at the start state: `channel.new` issued twice for `mychannel`. -/
theorem channel_new_idempotent_witness :
    ∃ ch s1 ev1,
      lcast_cmd_channel_new sampleEnv St.init (some 1) ⟨10, 9, 0, 0, 42, 0⟩ (some mychannel)
        = .done (Ret.success, s1,
            ev1 ++ [Event.ws_send (some 1) WS_OPCODE_BINARY
              (frame_head { (⟨10, 9, 0, 0, 42, 0⟩ : lcast_frame_t) with id := ch.id } 0)])
      ∧ lcast_cmd_channel_new sampleEnv s1 (some 1) ⟨10, 9, 0, 0, 43, 0⟩ (some mychannel)
        = .done (Ret.success, s1,
            [Event.lc_db_open,
             Event.ws_send (some 1) WS_OPCODE_BINARY
              (frame_head { (⟨10, 9, 0, 0, 43, 0⟩ : lcast_frame_t) with id := ch.id } 0)])
      ∧ lcast_channel_new sampleEnv St.init (mychannel.take 9) = .done (ch, s1, ev1)
      ∧ lcast_channel_new sampleEnv s1 (mychannel.take 9) = .done (ch, s1, [Event.lc_db_open])
      ∧ ch ∈ s1.lchan
      ∧ (s1.lchan.filter (fun p => strcmp_eq p.name (mychannel.take 9))).length = 1 :=
  channel_new_idempotent sampleEnv St.init (some 1) (some 1) ⟨10, 9, 0, 0, 42, 0⟩
    ⟨10, 9, 0, 0, 43, 0⟩ mychannel (ReachNew.init _ rfl) rfl (by decide) (by decide)


theorem byid_from_set_freed (l : List lcast_chan_t) (id i0 i : Nat) (ch : lcast_chan_t)
    (h : lcast_channel_byid_from i0 l id = .done (some (i, ch))) :
    i0 ≤ i ∧ ch.id = id ∧ l.get? (i - i0) = some ch
      ∧ lcast_channel_byid_from i0 (l.set (i - i0) { ch with freed := true }) id = .fault := by
  induction l generalizing i0 with
  | nil => simp [lcast_channel_byid_from] at h
  | cons p rest ih =>
    by_cases hf : p.freed = true
    · simp [lcast_channel_byid_from, hf] at h
    · by_cases hid : p.id = id
      · simp [lcast_channel_byid_from, hf, hid] at h
        obtain ⟨rfl, rfl⟩ := h
        simp [lcast_channel_byid_from, hid]
      · simp only [lcast_channel_byid_from, hf, hid, if_false] at h
        obtain ⟨h1, h2, h3, h4⟩ := ih (i0 + 1) h
        have e : i - i0 = (i - (i0 + 1)) + 1 := by omega
        refine ⟨by omega, h2, ?_, ?_⟩
        · rw [e]; simpa using h3
        · rw [e]
          simp only [List.set_cons_succ, lcast_channel_byid_from, hf, hid, if_false]
          exact h4

theorem byname_from_freed (l : List lcast_chan_t) (name : Bytes) (i0 k : Nat) (p : lcast_chan_t)
    (hk : l.get? k = some p) (hp : p.freed = true) :
    lcast_channel_byname_from i0 l name ≠ .done none := by
  induction l generalizing i0 k with
  | nil => simp at hk
  | cons q rest ih =>
    by_cases hf : q.freed = true
    · simp [lcast_channel_byname_from, hf]
    · by_cases hm : strcmp_eq q.name name = true
      · simp [lcast_channel_byname_from, hf, hm]
      · cases k with
        | zero =>
          simp at hk
          subst hk
          exact absurd hp hf
        | succ k =>
          simp only [lcast_channel_byname_from, hf, hm, if_false]
          exact ih (i0 + 1) k (by simpa using hk)

theorem channel_new_after_free (env : Env) (s : St) (name : Bytes) (k : Nat) (p : lcast_chan_t)
    (hk : s.lchan.get? k = some p) (hp : p.freed = true) (out : lcast_chan_t × St × List Event)
    (h : lcast_channel_new env s name = .done out) : out.2.1.lchan = s.lchan := by
  have hne := byname_from_freed s.lchan name 0 k p hk hp
  unfold lcast_channel_new at h
  simp only [lcast_init, bind, Run.bind] at h
  cases hb : lcast_channel_byname_from 0 s.lchan name with
  | fault => simp [hb] at h
  | nofuel => simp [hb] at h
  | done r =>
    cases r with
    | none => exact absurd hb hne
    | some jp =>
      simp [hb, pure] at h
      subst h
      rfl

/-- C10 fails on the code: `channel.part` of a registered channel calls `lc_channel_part` and
`lc_channel_free` and frees the node, but the node stays linked in `lchan` (same
length, same position, now freed).  A later lookup of that id reads freed memory,
and a later `channel.new`, whatever the name, never adds an entry. -/
theorem channel_part_dangling (s : St) (req : lcast_frame_t) (i : Nat) (ch : lcast_chan_t)
    (h : lcast_channel_byid s req.id = .done (some (i, ch))) :
    lcast_cmd_channel_part s req
        = .done (Ret.success, { s with lchan := s.lchan.set i { ch with freed := true } },
            [Event.lc_channel_part ch.chan, Event.lc_channel_free ch.chan])
      ∧ (s.lchan.set i { ch with freed := true }).length = s.lchan.length
      ∧ (s.lchan.set i { ch with freed := true }).get? i = some { ch with freed := true }
      ∧ lcast_channel_byid { s with lchan := s.lchan.set i { ch with freed := true } } req.id
          = .fault
      ∧ ∀ (env : Env) (name : Bytes) (out : lcast_chan_t × St × List Event),
          lcast_channel_new env { s with lchan := s.lchan.set i { ch with freed := true } } name
            = .done out →
          out.2.1.lchan = s.lchan.set i { ch with freed := true } := by
  have hh := byid_from_set_freed s.lchan req.id 0 i ch h
  simp only [Nat.sub_zero] at hh
  obtain ⟨-, -, h3, h4⟩ := hh
  have hlt : i < s.lchan.length := by
    rcases List.get?_eq_some.mp h3 with ⟨hlt, -⟩
    exact hlt
  have hget : (s.lchan.set i { ch with freed := true }).get? i = some { ch with freed := true } := by
    simp [List.getElem?_set, hlt]
  refine ⟨?_, by simp, hget, h4, ?_⟩
  · simp [lcast_cmd_channel_part, h, lcast_channel_free, bind, Run.bind, pure]
  · intro env name out hout
    exact channel_new_after_free env _ name i _ hget rfl out hout

/-- C10 in a worker with the one channel `mychannel`: after `channel.part` the freed node
is still the registry's only node and the lookup of its id is undefined. -/
theorem channel_part_dangling_witness :
    lcast_cmd_channel_part sampleSt ⟨17, 0, 1, 0, 0, 0⟩
        = .done (Ret.success,
            { sampleSt with lchan := [{ chan := 0, id := 1, name := mychannel, freed := true }] },
            [Event.lc_channel_part 0, Event.lc_channel_free 0])
    ∧ lcast_channel_byid
        { sampleSt with lchan := [{ chan := 0, id := 1, name := mychannel, freed := true }] } 1
        = .fault :=
  ⟨(channel_part_dangling sampleSt ⟨17, 0, 1, 0, 0, 0⟩ 0 ⟨0, 1, mychannel, false⟩
      (by decide)).1,
   (channel_part_dangling sampleSt ⟨17, 0, 1, 0, 0, 0⟩ 0 ⟨0, 1, mychannel, false⟩
      (by decide)).2.2.2.1⟩

/-! ## Reassembly -/


theorem length_realloc (env : Env) (stash : Option Bytes) (size : Nat) :
    (realloc env stash size).length = size := by
  simp only [realloc, List.length_append, List.length_map, List.length_range, List.length_take]
  omega

theorem rd_data (data : Bytes) (off n : Nat) (h : off + n ≤ data.length) :
    rd (some data) off n = .done ((data.drop off).take n) := by
  unfold rd
  by_cases h0 : n = 0
  · simp [h0]
  · simp [h0, h]

theorem stash_frame_eq (env : Env) (s : St) (f : ws_frame_t) (req : lcast_frame_t)
    (hdata : sizeof_lcast_frame_t + req.len ≤ f.data.length)
    (hlen : f.opcode = WS_OPCODE_CONTINUE → s.len + req.len < 2 ^ 64)
    (hreq : req.len < 2 ^ 64) :
    stash_frame env s f req
      = .done (if f.opcode = WS_OPCODE_CONTINUE then
          { s with stash := some ((realloc env s.stash (req.len + s.len)).take s.len
                        ++ (f.data.drop sizeof_lcast_frame_t).take req.len),
                   len := s.len + req.len }
        else
          { s with stash := some ((f.data.drop sizeof_lcast_frame_t).take req.len),
                   len := req.len }) := by
  by_cases hc : f.opcode = WS_OPCODE_CONTINUE
  · have h1 := hlen hc
    have h2 : (req.len + s.len) % 2 ^ 64 = req.len + s.len := Nat.mod_eq_of_lt (by omega)
    have h3 : (s.len + req.len) % 2 ^ 64 = s.len + req.len := Nat.mod_eq_of_lt h1
    simp only [Nat.reducePow] at h2 h3
    simp [stash_frame, hc, rd_data _ _ _ hdata, length_realloc, h2, h3, bind, Run.bind, pure,
      Nat.add_comm]
  · have h2 : req.len % 2 ^ 64 = req.len := Nat.mod_eq_of_lt hreq
    simp only [Nat.reducePow] at h2
    simp [stash_frame, hc, rd_data _ _ _ hdata, length_realloc, h2, bind, Run.bind, pure, realloc]

theorem decode_len_lt (f : ws_frame_t) (req : lcast_frame_t)
    (h : lcast_frame_decode f = .done req) : req.len < 2 ^ 32 := by
  unfold lcast_frame_decode at h
  cases h1 : rd (some f.data) 0 1 <;> simp [h1, bind, Run.bind] at h
  cases h2 : rd (some f.data) (0 + 1) 4 <;> simp [h2] at h
  cases h3 : rd (some f.data) (0 + 1 + 4) 4 <;> simp [h3] at h
  cases h4 : rd (some f.data) (0 + 1 + 4 + 4) 4 <;> simp [h4] at h
  cases h5 : rd (some f.data) (0 + 1 + 4 + 4 + 4) 4 <;> simp [h5, pure] at h
  subst h
  exact bswap32_lt _

theorem handler_nonfinal_independent (env : Env) (s t : St) (c : Option Nat) (f : ws_frame_t)
    (hop : f.opcode ≤ 2) (hnc : f.opcode ≠ WS_OPCODE_CONTINUE)
    (hst : { s with stash := none, len := 0 } = { t with stash := none, len := 0 }) :
    lcast_cmd_handler env s c f = lcast_cmd_handler env t c f := by
  have e : ∀ req, stash_frame env s f req = stash_frame env t f req := by
    intro req
    obtain ⟨w, k, x, ls, lc, st, ln, ns, nc⟩ := s
    obtain ⟨w', k', x', ls', lc', st', ln', ns', nc'⟩ := t
    simp only [St.mk.injEq] at hst
    obtain ⟨rfl, rfl, rfl, rfl, rfl, -, -, rfl, rfl⟩ := hst
    simp only [stash_frame, hnc, ne_eq, not_false_eq_true, if_true]
  simp only [lcast_cmd_handler, hop, if_true, e]

/-- C8: a final data frame (transport opcode at most 2) that carries its declared payload
and whose protocol opcode is not in the opcode table makes `lcast_cmd_handler`
return 0 with the error report as its only call: no command runs, no frame is
sent, the registries and every other global are unchanged and the stash is
released.  A data frame that is not a continuation is then handled exactly as it
would have been in the state before the rejected frame. -/
theorem unknown_opcode_rejected (env : Env) (s : St) (c : Option Nat) (f : ws_frame_t)
    (req : lcast_frame_t)
    (hdec : lcast_frame_decode f = .done req)
    (hdata : sizeof_lcast_frame_t + req.len ≤ f.data.length)
    (hfin : f.fin = true) (hop : f.opcode ≤ 2)
    (hlen : f.opcode = WS_OPCODE_CONTINUE → s.len + req.len < 2 ^ 64)
    (hbad : env.LCAST_OPCODES req.opcode = none) :
    lcast_cmd_handler env s c f
        = .done (Ret.success,
            { s with stash := none,
                     len := (if f.opcode = WS_OPCODE_CONTINUE then s.len else 0) + req.len },
            [Event.err_log lsd_error.LSD_ERROR_LIBRECAST_OPCODE_INVALID])
      ∧ ∀ (c2 : Option Nat) (f2 : ws_frame_t), f2.opcode ≤ 2 → f2.opcode ≠ WS_OPCODE_CONTINUE →
          lcast_cmd_handler env
              { s with stash := none,
                       len := (if f.opcode = WS_OPCODE_CONTINUE then s.len else 0) + req.len } c2 f2
            = lcast_cmd_handler env s c2 f2 := by
  have hreq : req.len < 2 ^ 64 := lt_trans (decode_len_lt f req hdec) (by decide)
  constructor
  · simp only [lcast_cmd_handler, hdec, hop, if_true, stash_frame_eq env s f req hdata hlen hreq,
      hfin, hbad, bind, Run.bind, pure]
    by_cases hc : f.opcode = WS_OPCODE_CONTINUE <;> simp [hc, ERRMSG]
  · intro c2 f2 h1 h2
    exact handler_nonfinal_independent env _ s c2 f2 h1 h2 rfl

/-- C8 at opcode `0xFF` with a payload of three bytes. -/
theorem unknown_opcode_rejected_witness :
    lcast_cmd_handler sampleEnv sampleSt (some 1) (mkframe true WS_OPCODE_BINARY ⟨255, 0, 0, 0, 0, 0⟩ [1, 2, 3])
      = .done (Ret.success, { sampleSt with stash := none, len := 3 },
          [Event.err_log lsd_error.LSD_ERROR_LIBRECAST_OPCODE_INVALID]) :=
  (unknown_opcode_rejected sampleEnv sampleSt (some 1)
    (mkframe true WS_OPCODE_BINARY ⟨255, 0, 0, 0, 0, 0⟩ [1, 2, 3]) ⟨255, 3, 0, 0, 0, 0⟩
    (by decide) (by decide) (by decide) (by decide) (by decide) (by decide)).1


/-- C3 fails on the code: `channel.new` for `mychannel` sent as one final binary frame
registers the channel `mychannel`; sent as a non-final binary frame carrying `my`
and a final continuation frame carrying `channel`, the stash holds `mychannel` but
the command runs with the length 7 of the last fragment and registers `mychann`. -/
theorem fragmented_channel_new_truncated :
    feed sampleEnv St.init (some 1)
        [mkframe true WS_OPCODE_BINARY ⟨10, 0, 0, 0, 42, 0⟩ mychannel]
      = .done ({ St.init with
                 keepalive_thread := true, lctx := true, len := 9, nchan := 1,
                 lchan := [{ chan := 0, id := 1, name := mychannel, freed := false }] },
          [Event.lc_ctx_new, Event.lc_db_open, Event.pthread_create,
           Event.lc_channel_new 0 mychannel,
           Event.ws_send (some 1) WS_OPCODE_BINARY (frame_head ⟨10, 0, 1, 0, 42, 0⟩ 0)])
    ∧ feed sampleEnv St.init (some 1)
        [mkframe false WS_OPCODE_BINARY ⟨10, 0, 0, 0, 42, 0⟩ [109, 121],
         mkframe true WS_OPCODE_CONTINUE ⟨10, 0, 0, 0, 42, 0⟩ [99, 104, 97, 110, 110, 101, 108]]
      = .done ({ St.init with
                 keepalive_thread := true, lctx := true, len := 9, nchan := 1,
                 lchan := [{ chan := 0, id := 1, name := [109, 121, 99, 104, 97, 110, 110],
                             freed := false }] },
          [Event.lc_ctx_new, Event.lc_db_open, Event.pthread_create,
           Event.lc_channel_new 0 [109, 121, 99, 104, 97, 110, 110],
           Event.ws_send (some 1) WS_OPCODE_BINARY (frame_head ⟨10, 0, 1, 0, 42, 0⟩ 0)]) := by
  decide

/-! ## The filter loop of `channel.getmsg` -/


theorem be16toh_of_length (l : Bytes) (h : l.length = 2) : be16toh (le_val l) = be_val l := by
  match l, h with
  | [a, b], _ => exact be16toh_le_val a b

theorem be32toh_of_length (l : Bytes) (h : l.length = 4) : be32toh (le_val l) = be_val l := by
  match l, h with
  | [a, b, c, d], _ => exact be32toh_le_val a b c d

theorem be_val_lt (l : Bytes) : be_val l < 256 ^ l.length := by
  induction l with
  | nil => simp [be_val]
  | cons b bs ih =>
    simp only [be_val, List.length_cons, pow_succ]
    have := b.isLt
    nlinarith

theorem rd_slice (buf : Bytes) (n i off m : Nat) (hn : n ≤ buf.length) (h : i + off + m ≤ n) :
    rd (some buf) (i + off) m = .done ((((buf.take n).drop i).drop off).take m) := by
  have e : (((buf.take n).drop i).drop off).take m = (buf.drop (i + off)).take m := by
    rw [List.drop_drop, List.drop_take, List.take_take]
    rw [Nat.min_eq_left (by omega)]
  rw [e]
  unfold rd
  by_cases h0 : m = 0
  · simp [h0]
  · have : i + off + m ≤ buf.length := by omega
    simp [h0, this]

theorem getmsg_loop_spec (env : Env) (buf : Bytes) (n : Nat) (hn : n ≤ buf.length)
    (hn32 : n < 2 ^ 32) :
    ∀ (k i : Nat) (fs : List (Nat × QVal)) (fuel : Nat), i ≤ n →
      spec_filters env strtoumax k ((buf.take n).drop i) = some fs → k ≤ fuel →
      getmsg_loop env (some buf) n fuel i = .done fs := by
  intro k
  induction k with
  | zero => intro i fs fuel _ h; simp [spec_filters] at h
  | succ k ih =>
    intro i fs fuel hi hspec hfuel
    obtain ⟨fuel, rfl⟩ : ∃ f, fuel = f + 1 := ⟨fuel - 1, by omega⟩
    have hblen : ((buf.take n).drop i).length = n - i := by
      simp [List.length_drop, List.length_take, Nat.min_eq_left hn]
    unfold spec_filters at hspec
    rw [hblen] at hspec
    by_cases h0 : n - i = 0
    · simp only [h0, if_true, Option.some.injEq] at hspec
      subst hspec
      have : ¬ i < n := by omega
      simp [getmsg_loop, this, pure]
    · simp only [h0, if_false] at hspec
      by_cases h6 : n - i < 6
      · simp [h6] at hspec
      · simp only [h6, if_false] at hspec
        have hlt : i < n := by omega
        have r1 := rd_slice buf n i 0 2 hn (by omega)
        have r2 := rd_slice buf n i 2 4 hn (by omega)
        simp only [Nat.add_zero, List.drop_zero] at r1
        have m1 : (i + 2) % 2 ^ 32 = i + 2 := Nat.mod_eq_of_lt (by omega)
        have m2 : (i + 2 + 4) % 2 ^ 32 = i + 6 := Nat.mod_eq_of_lt (by omega)
        have l1 : (((buf.take n).drop i).take 2).length = 2 := by
          rw [List.length_take, hblen]; omega
        have l2 : ((((buf.take n).drop i).drop 2).take 4).length = 4 := by
          rw [List.length_take, List.length_drop, hblen]; omega
        have hlen32 : be_val ((((buf.take n).drop i).drop 2).take 4) < 2 ^ 32 := by
          have := be_val_lt ((((buf.take n).drop i).drop 2).take 4)
          rw [l2] at this
          exact this
        unfold getmsg_loop
        simp only [hlt, if_true, bind, Run.bind, r1, r2, m1, m2, be16toh_of_length _ l1,
          be32toh_of_length _ l2]
        generalize hopv : be_val (((buf.take n).drop i).take 2) = op at hspec ⊢
        generalize hlnv : be_val ((((buf.take n).drop i).drop 2).take 4) = len at hspec hlen32 ⊢
        have step : ∀ fs', 6 + len ≤ n - i →
            spec_filters env strtoumax k (((buf.take n).drop i).drop (6 + len)) = some fs' →
            ¬ (len + 1) % 2 ^ 32 < len
            ∧ rd (some buf) (i + 6) len = .done ((((buf.take n).drop i).drop 6).take len)
            ∧ getmsg_loop env (some buf) n fuel ((i + 6 + len) % 2 ^ 32) = .done fs' := by
          intro fs' c2 hrec
          have m3 : (i + 6 + len) % 2 ^ 32 = i + 6 + len := Nat.mod_eq_of_lt (by omega)
          have m4 : (len + 1) % 2 ^ 32 = len + 1 := Nat.mod_eq_of_lt (by omega)
          refine ⟨by rw [m4]; omega, rd_slice buf n i 6 len hn (by omega), ?_⟩
          rw [m3]
          apply ih (i + 6 + len) fs' fuel (by omega) _ (by omega)
          rw [List.drop_drop] at hrec
          rw [← Nat.add_assoc] at hrec
          exact hrec
        by_cases c1 : op = env.LC_QUERY_DB ∨ op = env.LC_QUERY_KEY
        · simp only [c1, if_true] at hspec ⊢
          by_cases c2 : 6 + len ≤ n - i
          · simp only [c2, if_true, Option.map_eq_some'] at hspec
            obtain ⟨fs', hrec, rfl⟩ := hspec
            obtain ⟨s1, s2, s3⟩ := step fs' c2 hrec
            simp only [s1, if_false, s2, s3, pure]
          · simp [c2] at hspec
        · simp only [c1, if_false] at hspec ⊢
          by_cases c3 : op &&& env.LC_QUERY_TIME = env.LC_QUERY_TIME
          · simp only [c3, if_true] at hspec ⊢
            by_cases c2 : 6 + len ≤ n - i
            · simp only [c2, if_true, Option.map_eq_some'] at hspec
              obtain ⟨fs', hrec, rfl⟩ := hspec
              obtain ⟨s1, s2, s3⟩ := step fs' c2 hrec
              simp only [s1, if_false, s2, s3, pure]
            · simp [c2] at hspec
          · simp only [c3, if_false, Option.some.injEq] at hspec ⊢
            subst hspec
            rfl
theorem record_parts (op : Nat) (value rest : Bytes) :
    (filter_record op value ++ rest).length = 6 + value.length + rest.length
    ∧ (filter_record op value ++ rest).take 2 = be16 op
    ∧ ((filter_record op value ++ rest).drop 2).take 4 = be32 value.length
    ∧ ((filter_record op value ++ rest).drop 6).take value.length = value
    ∧ (filter_record op value ++ rest).drop (6 + value.length) = rest := by
  refine ⟨?_, ?_, ?_, ?_, ?_⟩
  · simp [filter_record, be16, be32]; omega
  · simp [filter_record, be16, be32]
  · simp [filter_record, be16, be32]
  · simp [filter_record, be16, be32]
  · have : 6 + value.length = ((be16 op ++ be32 value.length ++ value).length) := by
      simp [be16, be32]; omega
    rw [this, filter_record, List.drop_left]

theorem spec_filters_str (env : Env) (conv : Bytes → Nat) (k op : Nat) (value rest : Bytes)
    (hop : op < 2 ^ 16) (hv : value.length < 2 ^ 32)
    (h : op = env.LC_QUERY_DB ∨ op = env.LC_QUERY_KEY) :
    spec_filters env conv (k + 1) (filter_record op value ++ rest)
      = (spec_filters env conv k rest).map (fun fs => (op, QVal.str value) :: fs) := by
  obtain ⟨p1, p2, p3, p4, p5⟩ := record_parts op value rest
  have h0 : ¬ (6 + value.length + rest.length = 0) := by omega
  have h6 : ¬ (6 + value.length + rest.length < 6) := by omega
  have hle : 6 + value.length ≤ 6 + value.length + rest.length := by omega
  simp only [spec_filters, p1, p2, p3, be_val_be16 op hop, be_val_be32 _ hv, p4, p5, h0, h6, h,
    hle, if_true, if_false]

theorem spec_filters_time (env : Env) (conv : Bytes → Nat) (k op : Nat) (value rest : Bytes)
    (hop : op < 2 ^ 16) (hv : value.length < 2 ^ 32)
    (h : ¬ (op = env.LC_QUERY_DB ∨ op = env.LC_QUERY_KEY))
    (ht : op &&& env.LC_QUERY_TIME = env.LC_QUERY_TIME) :
    spec_filters env conv (k + 1) (filter_record op value ++ rest)
      = (spec_filters env conv k rest).map (fun fs => (op, QVal.time (conv value)) :: fs) := by
  obtain ⟨p1, p2, p3, p4, p5⟩ := record_parts op value rest
  have h0 : ¬ (6 + value.length + rest.length = 0) := by omega
  have h6 : ¬ (6 + value.length + rest.length < 6) := by omega
  have hle : 6 + value.length ≤ 6 + value.length + rest.length := by omega
  simp only [spec_filters, p1, p2, p3, be_val_be16 op hop, be_val_be32 _ hv, p4, p5, h0, h6, h,
    ht, hle, if_true, if_false]

theorem spec_filters_stop (env : Env) (conv : Bytes → Nat) (k : Nat) (r : Bytes)
    (hr : 6 ≤ r.length)
    (h : ¬ (be_val (r.take 2) = env.LC_QUERY_DB ∨ be_val (r.take 2) = env.LC_QUERY_KEY))
    (ht : ¬ be_val (r.take 2) &&& env.LC_QUERY_TIME = env.LC_QUERY_TIME) :
    spec_filters env conv (k + 1) r = some [] := by
  have h0 : ¬ (r.length = 0) := by omega
  have h6 : ¬ (r.length < 6) := by omega
  simp only [spec_filters, h0, h6, h, ht, if_false]

theorem cstr_digits (v : Bytes) (h : ∀ b ∈ v, isdigit b = true) : cstr v = v := by
  unfold cstr
  rw [List.takeWhile_eq_self_iff]
  intro b hb
  have := h b hb
  simp [isdigit] at this
  simp
  omega

theorem strtoumax_digits (v : Bytes) (h : ∀ b ∈ v, isdigit b = true)
    (hv : digits_val v < 2 ^ 64) : strtoumax v = digits_val v := by
  have h1 : (cstr v).dropWhile isspace = v := by
    rw [cstr_digits v h]
    cases v with
    | nil => rfl
    | cons b bs =>
      have := h b (List.mem_cons_self _ _)
      have hs : isspace b = false := by
        simp [isdigit] at this
        simp [isspace]
        omega
      simp [List.dropWhile, hs]
  have h2 : ¬ (v.head? = some (45 : Byte)) := by
    cases v with
    | nil => simp
    | cons b bs =>
      have := h b (List.mem_cons_self _ _)
      intro hb
      simp at hb
      rw [hb] at this
      exact absurd this (by decide)
  have h3 : ¬ (v.head? = some (43 : Byte)) := by
    cases v with
    | nil => simp
    | cons b bs =>
      have := h b (List.mem_cons_self _ _)
      intro hb
      simp at hb
      rw [hb] at this
      exact absurd this (by decide)
  have h4 : v.takeWhile isdigit = v := by
    rw [List.takeWhile_eq_self_iff]
    exact h
  have h5 : ¬ (2 ^ 64 ≤ digits_val v) := by omega
  simp only [strtoumax, h1, h2, h3, or_self, if_false, h4, h5, decide_False]

theorem frame_send_take (c : Option Nat) (rep : lcast_frame_t) (data : Bytes) (n : Nat)
    (hle : n ≤ data.length) :
    lcast_frame_send c rep (some data) n
      = .done [Event.ws_send c WS_OPCODE_BINARY (frame_head rep n ++ data.take n)] := by
  by_cases h0 : n = 0
  · subst h0
    simp [lcast_frame_send, bind, Run.bind, pure]
  · have hpos : 0 < n := Nat.pos_of_ne_zero h0
    simp [lcast_frame_send, rd, h0, hpos, hle, bind, Run.bind, pure]

theorem cstr_length_le (data : Bytes) : (cstr data).length % 2 ^ 32 ≤ data.length :=
  le_trans (Nat.mod_le _ _) (List.takeWhile_sublist _).length_le

theorem getmsg_replies_done (env : Env) (s : St) (req : lcast_frame_t)
    (msgs : List lc_messagelist_t) :
    ∃ sent, getmsg_replies env s req msgs = .done sent ∧ sent.length = msgs.length := by
  induction msgs with
  | nil => exact ⟨[], rfl, rfl⟩
  | cons m rest ih =>
    obtain ⟨sent, h, hl⟩ := ih
    refine ⟨[Event.ws_send s.websock WS_OPCODE_BINARY
        (frame_head { opcode := env.LCAST_OP_SOCKET_MSG, len := 0, id := req.id, id2 := 0,
                      token := req.token, timestamp := m.timestamp }
            ((cstr m.data).length % 2 ^ 32) ++ m.data.take ((cstr m.data).length % 2 ^ 32))]
        ++ sent, ?_, ?_⟩
    · simp only [getmsg_replies, frame_send_take _ _ _ _ (cstr_length_le m.data), h, bind,
        Run.bind, pure]
    · simp [hl]

theorem getmsg_cmd_of_spec (env : Env) (s : St) (req : lcast_frame_t) (buf : Bytes)
    (i : Nat) (ch : lcast_chan_t) (fs : List (Nat × QVal)) (kf : Nat)
    (hreg : lcast_channel_byid s req.id = .done (some (i, ch)))
    (hq : env.lc_query_new = 0)
    (hlen : req.len ≤ buf.length) (h32 : req.len < 2 ^ 32)
    (hspec : spec_filters env strtoumax kf (buf.take req.len) = some fs)
    (hfuel : kf ≤ env.fuel) :
    getmsg_loop env (some buf) req.len env.fuel 0 = .done fs
      ∧ ∃ sent, lcast_cmd_channel_getmsg env s req (some buf)
          = .done (Ret.success, s,
              [Event.lc_query_new, Event.lc_query_push env.LC_QUERY_CHANNEL (QVal.str ch.name)]
                ++ fs.map (fun f => Event.lc_query_push f.1 f.2)
                ++ [Event.lc_query_exec] ++ sent
                ++ [Event.lc_msglist_free, Event.lc_query_free]) := by
  have hloop := getmsg_loop_spec env buf req.len hlen h32 kf 0 fs env.fuel
    (Nat.zero_le _) (by simpa using hspec) hfuel
  refine ⟨hloop, ?_⟩
  obtain ⟨sent, hsent, -⟩ := getmsg_replies_done env s req
    (env.lc_query_exec ((env.LC_QUERY_CHANNEL, QVal.str ch.name) :: fs))
  refine ⟨sent, ?_⟩
  simp [lcast_cmd_channel_getmsg, hreg, hq, hloop, hsent, bind, Run.bind, pure]

/-- C7 as amended: on a registered channel, with a query the library could create, when
the first `req->len` bytes of the payload are a sequence of complete records (the
reference parser, reading TIME values as `strtoumax` does, returns `fs` within some
budget of records) and the loop may run as many times, the filter loop pushes
exactly `fs`; the
command pushes the CHANNEL filter with the channel's name, then `fs`, runs the
query and returns success.  For a string of decimal digits with a value below
2^64, `strtoumax` is the base-10 integer. -/
theorem getmsg_filters_refine (env : Env) (s : St) (req : lcast_frame_t) (buf : Bytes)
    (i : Nat) (ch : lcast_chan_t) (fs : List (Nat × QVal)) (kf : Nat)
    (hreg : lcast_channel_byid s req.id = .done (some (i, ch)))
    (hq : env.lc_query_new = 0)
    (hlen : req.len ≤ buf.length) (h32 : req.len < 2 ^ 32)
    (hspec : spec_filters env strtoumax kf (buf.take req.len) = some fs)
    (hfuel : kf ≤ env.fuel) :
    getmsg_loop env (some buf) req.len env.fuel 0 = .done fs
      ∧ (∃ sent, lcast_cmd_channel_getmsg env s req (some buf)
          = .done (Ret.success, s,
              [Event.lc_query_new, Event.lc_query_push env.LC_QUERY_CHANNEL (QVal.str ch.name)]
                ++ fs.map (fun f => Event.lc_query_push f.1 f.2)
                ++ [Event.lc_query_exec] ++ sent
                ++ [Event.lc_msglist_free, Event.lc_query_free]))
      ∧ ∀ v : Bytes, (∀ b ∈ v, isdigit b = true) → digits_val v < 2 ^ 64 →
          strtoumax v = digits_val v := by
  obtain ⟨h1, h2⟩ := getmsg_cmd_of_spec env s req buf i ch fs kf hreg hq hlen h32 hspec hfuel
  exact ⟨h1, h2, strtoumax_digits⟩

/-- C7 as amended, at a KEY record, a TIME record and a record with opcode 0. -/
theorem getmsg_filters_refine_witness :
    getmsg_loop sampleEnv
        (some (filter_record 512 [107, 101, 121] ++ filter_record 16 [49, 55, 48, 48, 48, 48, 48, 48, 48, 48] ++ [0, 0, 0, 0, 0, 0]))
        31 sampleEnv.fuel 0
      = .done [(512, QVal.str [107, 101, 121]), (16, QVal.time 1700000000)] :=
  (getmsg_filters_refine sampleEnv sampleSt ⟨11, 31, 1, 0, 7, 0⟩
    (filter_record 512 [107, 101, 121] ++ filter_record 16 [49, 55, 48, 48, 48, 48, 48, 48, 48, 48] ++ [0, 0, 0, 0, 0, 0])
    0 ⟨0, 1, mychannel, false⟩ [(512, QVal.str [107, 101, 121]), (16, QVal.time 1700000000)] 3
    (by decide) (by decide) (by decide) (by decide) (by decide) (by decide)).1

/-- C7 as stated fails: for the TIME value 2^64 written in decimal the reference parser
with the base-10 integer gives 2^64 while the loop pushes 2^64 - 1; for a
payload of two bytes, the KEY opcode alone, the command reads past the end of the
payload instead of returning; and when the library cannot create the query the
command fails with the library's code and pushes no filter. -/
theorem getmsg_reference_counterexample :
    spec_filters sampleEnv digits_val 27 (filter_record 16 [49, 56, 52, 52, 54, 55, 52, 52, 48, 55, 51, 55, 48, 57, 53, 53, 49, 54, 49, 54])
      = some [(16, QVal.time 18446744073709551616)]
    ∧ getmsg_loop sampleEnv (some (filter_record 16 [49, 56, 52, 52, 54, 55, 52, 52, 48, 55, 51, 55, 48, 57, 53, 53, 49, 54, 49, 54])) 26 sampleEnv.fuel 0
      = .done [(16, QVal.time 18446744073709551615)]
    ∧ lcast_cmd_channel_getmsg sampleEnv sampleSt ⟨11, 2, 1, 0, 7, 0⟩ (some [2, 0]) = .fault
    ∧ lcast_cmd_channel_getmsg noQueryEnv sampleSt ⟨11, 9, 1, 0, 7, 0⟩
        (some (filter_record 512 [107, 101, 121]))
      = .done (Ret.failure (lsd_error.collaborator 5), sampleSt,
          [Event.lc_query_new, Event.err_log (lsd_error.collaborator 5)]) := by
  decide

theorem length_filter_record (op : Nat) (value : Bytes) :
    (filter_record op value).length = 6 + value.length := by
  simp [filter_record, be16, be32]; omega

/-- C6 as amended: on a registered channel, with a query the library could create, a
`channel.getmsg` payload made of the KEY record for `k`, a record with a TIME-tagged
opcode `top` for a string `t` of decimal digits whose value is below 2^64, and ten
trailing bytes whose first two bytes are not a recognised opcode (not KEY, not DB,
TIME bit clear), with the frame length covering all of it, pushes after the channel
scope exactly the KEY filter `k` and the TIME filter with the value of `t`, runs the
query and returns success. -/
theorem getmsg_key_time_trailing (env : Env) (s : St) (req : lcast_frame_t) (k t r : Bytes)
    (top i : Nat) (ch : lcast_chan_t)
    (hreg : lcast_channel_byid s req.id = .done (some (i, ch)))
    (hq : env.lc_query_new = 0)
    (hkey : env.LC_QUERY_KEY < 2 ^ 16)
    (htop : top < 2 ^ 16) (htime : top &&& env.LC_QUERY_TIME = env.LC_QUERY_TIME)
    (hnk : ¬ (top = env.LC_QUERY_DB ∨ top = env.LC_QUERY_KEY))
    (hdig : ∀ b ∈ t, isdigit b = true) (hval : digits_val t < 2 ^ 64)
    (hr : r.length = 10)
    (hrk : ¬ (be_val (r.take 2) = env.LC_QUERY_DB ∨ be_val (r.take 2) = env.LC_QUERY_KEY))
    (hrt : ¬ be_val (r.take 2) &&& env.LC_QUERY_TIME = env.LC_QUERY_TIME)
    (hlen : req.len = (filter_record env.LC_QUERY_KEY k ++ filter_record top t ++ r).length)
    (h32 : req.len < 2 ^ 32) (hfuel : 3 ≤ env.fuel) :
    ∃ sent, lcast_cmd_channel_getmsg env s req
        (some (filter_record env.LC_QUERY_KEY k ++ filter_record top t ++ r))
      = .done (Ret.success, s,
          [Event.lc_query_new,
           Event.lc_query_push env.LC_QUERY_CHANNEL (QVal.str ch.name),
           Event.lc_query_push env.LC_QUERY_KEY (QVal.str k),
           Event.lc_query_push top (QVal.time (digits_val t)),
           Event.lc_query_exec] ++ sent ++ [Event.lc_msglist_free, Event.lc_query_free]) := by
  have hl := hlen
  simp only [List.length_append, length_filter_record] at hl
  have hspec : spec_filters env strtoumax 3
      ((filter_record env.LC_QUERY_KEY k ++ filter_record top t ++ r).take req.len)
      = some [(env.LC_QUERY_KEY, QVal.str k), (top, QVal.time (digits_val t))] := by
    rw [hlen, List.take_length, List.append_assoc,
      spec_filters_str env strtoumax 2 _ k _ hkey (by omega) (Or.inr rfl),
      spec_filters_time env strtoumax 1 top t r htop (by omega) hnk htime,
      spec_filters_stop env strtoumax 0 r (by omega) hrk hrt, strtoumax_digits t hdig hval]
    rfl
  obtain ⟨-, sent, h⟩ := getmsg_cmd_of_spec env s req _ i ch _ 3 hreg hq (by rw [hlen]) h32
    hspec hfuel
  exact ⟨sent, by simpa using h⟩

/-- C6 as amended, at KEY `key`, TIME `1700000000` and ten trailing bytes that start with
the unrecognised opcode 0. -/
theorem getmsg_key_time_trailing_witness :
    ∃ sent, lcast_cmd_channel_getmsg sampleEnv sampleSt ⟨11, 35, 1, 0, 7, 0⟩
        (some (filter_record sampleEnv.LC_QUERY_KEY [107, 101, 121] ++ filter_record 16 [49, 55, 48, 48, 48, 48, 48, 48, 48, 48]
          ++ [0, 0, 9, 9, 9, 9, 9, 9, 9, 9]))
      = .done (Ret.success, sampleSt,
          [Event.lc_query_new,
           Event.lc_query_push sampleEnv.LC_QUERY_CHANNEL (QVal.str mychannel),
           Event.lc_query_push sampleEnv.LC_QUERY_KEY (QVal.str [107, 101, 121]),
           Event.lc_query_push 16 (QVal.time (digits_val [49, 55, 48, 48, 48, 48, 48, 48, 48, 48])),
           Event.lc_query_exec] ++ sent ++ [Event.lc_msglist_free, Event.lc_query_free]) :=
  getmsg_key_time_trailing sampleEnv sampleSt ⟨11, 35, 1, 0, 7, 0⟩ [107, 101, 121] [49, 55, 48, 48, 48, 48, 48, 48, 48, 48]
    [0, 0, 9, 9, 9, 9, 9, 9, 9, 9] 16 0 ⟨0, 1, mychannel, false⟩
    (by decide) (by decide) (by decide) (by decide) (by decide) (by decide) (by decide)
    (by decide) (by decide) (by decide) (by decide) (by decide) (by decide) (by decide)

/-- C6 as stated fails: ten trailing bytes that happen to form a KEY record add a third
filter (first equation); a TIME value of 2^64, written in decimal, gives the
filter value 2^64 - 1 (second equation; the third computes the value written);
and when the library cannot create the query the command fails with the
library's code before it reads the payload (fourth equation). -/
theorem getmsg_trailing_counterexample :
    lcast_cmd_channel_getmsg sampleEnv sampleSt ⟨11, 35, 1, 0, 7, 0⟩
        (some (filter_record 512 [107, 101, 121] ++ filter_record 16 [49, 55, 48, 48, 48, 48, 48, 48, 48, 48]
          ++ [2, 0, 0, 0, 0, 4, 1, 2, 3, 4]))
      = .done (Ret.success, sampleSt,
          [Event.lc_query_new,
           Event.lc_query_push 128 (QVal.str mychannel),
           Event.lc_query_push 512 (QVal.str [107, 101, 121]),
           Event.lc_query_push 16 (QVal.time 1700000000),
           Event.lc_query_push 512 (QVal.str [1, 2, 3, 4]),
           Event.lc_query_exec, Event.lc_msglist_free, Event.lc_query_free])
    ∧ lcast_cmd_channel_getmsg sampleEnv sampleSt ⟨11, 45, 1, 0, 7, 0⟩
        (some (filter_record 512 [107, 101, 121]
          ++ filter_record 16 [49, 56, 52, 52, 54, 55, 52, 52, 48, 55, 51, 55, 48, 57, 53, 53, 49, 54, 49, 54]
          ++ [0, 0, 0, 0, 0, 4, 1, 2, 3, 4]))
      = .done (Ret.success, sampleSt,
          [Event.lc_query_new,
           Event.lc_query_push 128 (QVal.str mychannel),
           Event.lc_query_push 512 (QVal.str [107, 101, 121]),
           Event.lc_query_push 16 (QVal.time 18446744073709551615),
           Event.lc_query_exec, Event.lc_msglist_free, Event.lc_query_free])
    ∧ digits_val [49, 56, 52, 52, 54, 55, 52, 52, 48, 55, 51, 55, 48, 57, 53, 53, 49, 54, 49, 54]
      = 18446744073709551616
    ∧ lcast_cmd_channel_getmsg noQueryEnv sampleSt ⟨11, 35, 1, 0, 7, 0⟩
        (some (filter_record 512 [107, 101, 121] ++ filter_record 16 [49, 55, 48, 48, 48, 48, 48, 48, 48, 48]
          ++ [0, 0, 9, 9, 9, 9, 9, 9, 9, 9]))
      = .done (Ret.failure (lsd_error.collaborator 5), sampleSt,
          [Event.lc_query_new, Event.err_log (lsd_error.collaborator 5)]) := by
  decide

/-! ## Lookup failures -/


/-- C9 as amended: when the channel id of the request is not registered, `channel.bind`,
`join`, `part`, `send`, `getmsg`, `setval` and, for a payload that is not NULL,
`getval` return the channel-not-found error whatever the other arguments are; when
the channel is registered but the socket id is not, `channel.bind` returns the
invalid-socket-id error; `socket.listen` on a socket id that is not registered
returns the invalid-socket-id error.  In each case the state is unchanged and the
error report is the only call made.  The two error codes are distinct. -/
theorem lookup_first (env : Env) (s : St) (c : Option Nat) (req : lcast_frame_t)
    (payload : Option Bytes) :
    (lcast_channel_byid s req.id = .done none →
      ∀ cmd ∈ [lcast_cmd.channel_bind, .channel_join, .channel_part, .channel_send,
               .channel_getmsg, .channel_getval, .channel_setval],
        (cmd = .channel_getval → payload.isSome = true) →
        cmd.run env s c req payload
          = .done (Ret.failure LSD_ERROR_LIBRECAST_CHANNEL_NOT_EXIST, s,
              [Event.err_log LSD_ERROR_LIBRECAST_CHANNEL_NOT_EXIST]))
    ∧ (∀ ch, lcast_channel_byid s req.id = .done (some ch) → lcast_socket_byid s req.id2 = none →
        lcast_cmd.channel_bind.run env s c req payload
          = .done (Ret.failure LSD_ERROR_LIBRECAST_INVALID_SOCKET_ID, s,
              [Event.err_log LSD_ERROR_LIBRECAST_INVALID_SOCKET_ID]))
    ∧ (lcast_socket_byid s req.id = none →
        lcast_cmd.socket_listen.run env s c req payload
          = .done (Ret.failure LSD_ERROR_LIBRECAST_INVALID_SOCKET_ID, s,
              [Event.err_log LSD_ERROR_LIBRECAST_INVALID_SOCKET_ID]))
    ∧ LSD_ERROR_LIBRECAST_CHANNEL_NOT_EXIST ≠ LSD_ERROR_LIBRECAST_INVALID_SOCKET_ID := by
  refine ⟨?_, ?_, ?_, by decide⟩
  · intro h cmd hcmd hp
    simp only [List.mem_cons, List.mem_singleton, List.mem_nil_iff, or_false] at hcmd
    rcases hcmd with rfl | rfl | rfl | rfl | rfl | rfl | rfl
    · simp [lcast_cmd.run, lcast_cmd_channel_bind, h, FAIL, bind, Run.bind]
    · simp [lcast_cmd.run, lcast_cmd_channel_join, h, FAIL, bind, Run.bind]
    · simp [lcast_cmd.run, lcast_cmd_channel_part, h, FAIL, bind, Run.bind]
    · simp [lcast_cmd.run, lcast_cmd_channel_send, h, FAIL, bind, Run.bind]
    · simp [lcast_cmd.run, lcast_cmd_channel_getmsg, h, FAIL, bind, Run.bind]
    · have hp' := hp rfl
      cases payload with
      | none => simp at hp'
      | some b => simp [lcast_cmd.run, lcast_cmd_channel_getval, h, FAIL, bind, Run.bind]
    · simp [lcast_cmd.run, lcast_cmd_channel_setval, h, FAIL, bind, Run.bind]
  · intro ch h1 h2
    simp [lcast_cmd.run, lcast_cmd_channel_bind, h1, h2, FAIL, bind, Run.bind]
  · intro h
    simp [lcast_cmd.run, lcast_cmd_socket_listen, h, FAIL]

/-- C9 as amended, in a worker with channel 1 and socket 1: `channel.join` of the unknown
channel 9, `channel.bind` of channel 1 to the unknown socket 9, `socket.listen` on
the unknown socket 9. -/
theorem lookup_first_witness :
    lcast_cmd.channel_join.run sampleEnv sampleSt (some 1) ⟨16, 0, 9, 0, 0, 0⟩ none
        = .done (Ret.failure lsd_error.LSD_ERROR_LIBRECAST_CHANNEL_NOT_EXIST, sampleSt,
            [Event.err_log lsd_error.LSD_ERROR_LIBRECAST_CHANNEL_NOT_EXIST])
    ∧ lcast_cmd.channel_bind.run sampleEnv sampleSt (some 1) ⟨14, 0, 1, 9, 0, 0⟩ none
        = .done (Ret.failure lsd_error.LSD_ERROR_LIBRECAST_INVALID_SOCKET_ID, sampleSt,
            [Event.err_log lsd_error.LSD_ERROR_LIBRECAST_INVALID_SOCKET_ID])
    ∧ lcast_cmd.socket_listen.run sampleEnv sampleSt (some 1) ⟨6, 0, 9, 0, 0, 0⟩ none
        = .done (Ret.failure lsd_error.LSD_ERROR_LIBRECAST_INVALID_SOCKET_ID, sampleSt,
            [Event.err_log lsd_error.LSD_ERROR_LIBRECAST_INVALID_SOCKET_ID]) :=
  ⟨(lookup_first sampleEnv sampleSt (some 1) ⟨16, 0, 9, 0, 0, 0⟩ none).1 (by decide)
      lcast_cmd.channel_join (by decide) (by decide),
   (lookup_first sampleEnv sampleSt (some 1) ⟨14, 0, 1, 9, 0, 0⟩ none).2.1
      (0, ⟨0, 1, mychannel, false⟩) (by decide) (by decide),
   (lookup_first sampleEnv sampleSt (some 1) ⟨6, 0, 9, 0, 0, 0⟩ none).2.2.1 (by decide)⟩

/-- C9 as stated fails for `channel.getval`: with a NULL payload and a channel id that is
not registered the command returns invalid-params, not channel-not-found. -/
theorem getval_null_payload_counterexample :
    lcast_channel_byid sampleSt 9 = .done none
    ∧ lcast_cmd_channel_getval sampleEnv sampleSt (some 1) ⟨12, 0, 9, 0, 0, 0⟩ none
      = .done (Ret.failure lsd_error.LSD_ERROR_LIBRECAST_INVALID_PARAMS, sampleSt,
          [Event.err_log lsd_error.LSD_ERROR_LIBRECAST_INVALID_PARAMS]) := by
  decide


/-! ## The capacity loop of the controller -/

theorem reap_eq (k : Nat) (h : Int) : reap k h = h - k := by
  induction k generalizing h with
  | zero => simp [reap]
  | succ k ih => rw [reap, ih]; push_cast; omega

theorem loop_iter_ok (K : Limits) (i : IterIn) (s : Ctl)
    (hwait : i.wait = Wait.ok) (hsem : s.sem_op = -1) (hrdy : 0 < s.rdy)
    (hread : i.getval_fails = false) :
    loop_iter K i s
      = some (
          if s.handlers < K.HANDLER_MAX ∧ s.handlers - s.bsy < K.HANDLER_MIN then
            if i.fork = -1 then
              ({ s with pid := -1 },
               [Sys.semop (-1), Sys.semctl_getval, Sys.fork, Sys.log_error, Sys.semop 1], true)
            else
              ({ s with rdy := s.rdy - 1, pid := i.fork, handlers := s.handlers + 1 },
               [Sys.semop (-1), Sys.semctl_getval, Sys.fork]
                 ++ (if i.fork = 0 then [Sys.handler_start s.run] else []), true)
          else
            ({ s with rdy := s.rdy - 1 },
             Sys.semop (-1) :: (if s.handlers < K.HANDLER_MAX then [Sys.semctl_getval] else []),
             true)) := by
  have h1 : ¬ ((s.rdy : Int) + -1 < 0) := by omega
  have h2 : ((s.rdy : Int) + -1).toNat = s.rdy - 1 := by omega
  have h3 : s.rdy - 1 + 1 = s.rdy := by omega
  have h4 : ¬ ((s.bsy : Int) = -1) := by omega
  obtain ⟨run, pid, handlers, socks, rdy, bsy, sem_op⟩ := s
  simp only at hsem hrdy h1 h2 h3 h4
  subst hsem
  simp only [loop_iter, hwait, hread, h1, h2, h3, h4, if_false, Bool.false_eq_true, ge_iff_le]
  by_cases hmax : handlers < K.HANDLER_MAX
  · by_cases hmin : handlers - bsy < K.HANDLER_MIN
    · by_cases hf : i.fork = -1
      · simp [hmax, hmin, hf, not_le.mpr hmax, not_le.mpr hmin]
      · by_cases h0 : i.fork = 0
        · simp [hmax, hmin, hf, h0, not_le.mpr hmax, not_le.mpr hmin]
        · simp [hmax, hmin, hf, h0, not_le.mpr hmax, not_le.mpr hmin]
    · simp [hmax, hmin, not_le.mpr hmax, not_lt.mp hmin]
  · simp [hmax, not_lt.mp hmax]

/-- C11: in an iteration of the capacity loop whose wait has taken one unit of demand and
whose read of the busy counter succeeds, `fork` is called, once, exactly when
`handlers < HANDLER_MAX` and `handlers - busy < HANDLER_MIN`; `handlers` is one
more after a `fork` that did not fail and unchanged otherwise; with `busy = 0` and
`handlers = HANDLER_MIN` there is no `fork` and `handlers` is unchanged. -/
theorem capacity_iteration (K : Limits) (i : IterIn) (s : Ctl)
    (hwait : i.wait = Wait.ok) (hsem : s.sem_op = -1) (hrdy : 0 < s.rdy)
    (hread : i.getval_fails = false) :
    ∃ out : Ctl × List Sys × Bool, loop_iter K i s = some out
      ∧ (Sys.fork ∈ out.2.1 ↔ s.handlers < K.HANDLER_MAX ∧ s.handlers - s.bsy < K.HANDLER_MIN)
      ∧ out.2.1.count Sys.fork ≤ 1
      ∧ out.1.handlers
          = (if Sys.fork ∈ out.2.1 ∧ i.fork ≠ -1 then s.handlers + 1 else s.handlers)
      ∧ (s.bsy = 0 → s.handlers = K.HANDLER_MIN → Sys.fork ∉ out.2.1 ∧ out.1.handlers = s.handlers) := by
  refine ⟨_, loop_iter_ok K i s hwait hsem hrdy hread, ?_⟩
  by_cases hc : s.handlers < K.HANDLER_MAX ∧ s.handlers - s.bsy < K.HANDLER_MIN
  · have hnot : ¬ (s.bsy = 0 ∧ s.handlers = K.HANDLER_MIN) := by
      rintro ⟨hb, hh⟩
      have := hc.2
      rw [hb, hh] at this
      simp at this
    by_cases hf : i.fork = -1
    · simp only [if_pos hc, if_pos hf]
      refine ⟨by simp [hc], by decide, by simp [hf], fun hb hh => absurd ⟨hb, hh⟩ hnot⟩
    · simp only [if_pos hc, if_neg hf]
      refine ⟨by simp [hc], ?_, by simp [hf], fun hb hh => absurd ⟨hb, hh⟩ hnot⟩
      by_cases h0 : i.fork = 0 <;> simp [h0, List.count_cons]
  · simp only [if_neg hc]
    have hno : Sys.fork ∉ Sys.semop (-1) ::
        (if s.handlers < K.HANDLER_MAX then [Sys.semctl_getval] else []) := by
      by_cases hm : s.handlers < K.HANDLER_MAX <;> simp [hm]
    refine ⟨by simp [hc, hno], ?_, by simp [hno], fun _ _ => ⟨hno, trivial⟩⟩
    rw [List.count_eq_zero_of_not_mem hno]
    exact Nat.zero_le _

/-- C11 with one worker, none busy, `HANDLER_MIN = 1`: no spawn. -/
theorem capacity_iteration_witness :
    ∃ out : Ctl × List Sys × Bool,
      loop_iter sampleLimits ⟨Wait.ok, false, 100⟩ { sampleCtl with handlers := 1 } = some out
      ∧ Sys.fork ∉ out.2.1 ∧ out.1.handlers = 1 := by
  obtain ⟨out, h1, -, -, -, h5⟩ :=
    capacity_iteration sampleLimits ⟨Wait.ok, false, 100⟩ { sampleCtl with handlers := 1 }
      rfl rfl (by decide) rfl
  exact ⟨out, h1, h5 rfl rfl⟩

/-- C13: for every state and every number `k` of terminated children, `sigchld_handler`
leaves `handlers` lowered by `k`; when the result is below `HANDLER_MIN` it adds
the deficit to the ready-demand counter with one `semop`, else it leaves the
counter alone and calls no `semop`; the busy counter is unchanged. -/
theorem sigchld_reaps (K : Limits) (s : Ctl) (k : Nat) :
    (sigchld_handler K k s).1.handlers = s.handlers - k
      ∧ (sigchld_handler K k s).1.rdy
          = (if s.handlers - k < K.HANDLER_MIN
              then s.rdy + (K.HANDLER_MIN - (s.handlers - k)).toNat else s.rdy)
      ∧ (sigchld_handler K k s).1.bsy = s.bsy
      ∧ (sigchld_handler K k s).2
          = List.replicate (k + 1) Sys.waitpid
              ++ (if s.handlers - k < K.HANDLER_MIN
                  then [Sys.semop (K.HANDLER_MIN - (s.handlers - k))] else []) := by
  simp only [sigchld_handler, reap_eq]
  by_cases h : s.handlers - k < K.HANDLER_MIN
  · simp only [if_pos h]
    refine ⟨trivial, ?_, trivial, trivial⟩
    show ((s.rdy : Int) + (K.HANDLER_MIN - (s.handlers - k))).toNat = _
    omega
  · simp [if_neg h]

/-- C14: when the wait has taken one unit of demand, the busy counter is read, the spawn
conditions hold and `fork` returns -1, the iteration changes nothing but `pid`:
`handlers` is unchanged, the ready-demand counter is back at its value from
before the wait (one `semop` by +1), `sem_op` is -1 again for the next wait, and
the loop goes on. -/
theorem fork_failure_refunds (K : Limits) (i : IterIn) (s : Ctl)
    (hwait : i.wait = Wait.ok) (hsem : s.sem_op = -1) (hrdy : 0 < s.rdy)
    (hread : i.getval_fails = false)
    (hmax : s.handlers < K.HANDLER_MAX) (hmin : s.handlers - s.bsy < K.HANDLER_MIN)
    (hfork : i.fork = -1) :
    loop_iter K i s
        = some ({ s with pid := -1 },
            [Sys.semop (-1), Sys.semctl_getval, Sys.fork, Sys.log_error, Sys.semop 1], true)
      ∧ ∀ out : Ctl × List Sys × Bool, loop_iter K i s = some out →
          out.1.handlers = s.handlers ∧ out.1.rdy = s.rdy ∧ out.1.sem_op = -1
            ∧ out.2.1.count (Sys.semop 1) = 1 ∧ out.2.2 = true := by
  have h := loop_iter_ok K i s hwait hsem hrdy hread
  rw [if_pos ⟨hmax, hmin⟩, if_pos hfork] at h
  refine ⟨h, ?_⟩
  intro out ho
  rw [h] at ho
  cases ho
  exact ⟨rfl, rfl, hsem, by simp [List.count_cons], rfl⟩

/-- C14 at the entry state of the loop under `sampleLimits`. -/
theorem fork_failure_refunds_witness :
    loop_iter sampleLimits ⟨Wait.ok, false, -1⟩ sampleCtl
      = some ({ sampleCtl with pid := -1 },
          [Sys.semop (-1), Sys.semctl_getval, Sys.fork, Sys.log_error, Sys.semop 1], true) :=
  (fork_failure_refunds sampleLimits ⟨Wait.ok, false, -1⟩ sampleCtl rfl rfl (by decide) rfl
    (by decide) (by decide) rfl).1

theorem ctl_inv (K : Limits) (hmin : 0 < K.HANDLER_MIN) (hmax : K.HANDLER_MIN ≤ K.HANDLER_MAX)
    (s : Ctl) (h : CtlReach K s) :
    s.handlers ≤ K.HANDLER_MAX ∧ K.HANDLER_MIN ≤ s.handlers + s.rdy ∧ s.sem_op = -1 := by
  induction h with
  | init s h0 hr hs =>
    refine ⟨by omega, ?_, hs⟩
    rw [h0, hr]
    omega
  | iter s i out _ hread hfork hstep ih =>
    obtain ⟨ih1, ih2, ih3⟩ := ih
    have hb : ¬ ((s.bsy : Int) = -1) := by omega
    have hf : ¬ (i.fork = -1) := by omega
    have hf0 : ¬ (i.fork = 0) := by omega
    unfold loop_iter at hstep
    cases hw : i.wait with
    | eintr =>
      simp only [hw] at hstep
      cases hstep
      exact ⟨ih1, ih2, ih3⟩
    | error =>
      simp only [hw] at hstep
      cases hstep
      exact ⟨ih1, ih2, ih3⟩
    | ok =>
      simp only [hw, hread, ih3, hb, hf, hf0, if_false, Bool.false_eq_true, ge_iff_le] at hstep
      by_cases hr : (s.rdy : Int) + -1 < 0
      · simp [hr] at hstep
      · simp only [hr, if_false] at hstep
        by_cases h1 : K.HANDLER_MAX ≤ s.handlers
        · simp only [h1, if_true, Option.some.injEq] at hstep
          subst hstep
          refine ⟨ih1, ?_, rfl⟩
          show K.HANDLER_MIN ≤ s.handlers + (((s.rdy : Int) + -1).toNat : Nat)
          omega
        · simp only [h1, if_false] at hstep
          by_cases h2 : K.HANDLER_MIN ≤ s.handlers - s.bsy
          · simp only [h2, if_true, Option.some.injEq] at hstep
            subst hstep
            refine ⟨ih1, ?_, rfl⟩
            show K.HANDLER_MIN ≤ s.handlers + (((s.rdy : Int) + -1).toNat : Nat)
            omega
          · simp only [h2, if_false, Option.some.injEq] at hstep
            subst hstep
            refine ⟨?_, ?_, rfl⟩
            · show s.handlers + 1 ≤ K.HANDLER_MAX
              omega
            · show K.HANDLER_MIN ≤ s.handlers + 1 + (((s.rdy : Int) + -1).toNat : Nat)
              omega
  | sigchld s k _ hk ih =>
    obtain ⟨ih1, ih2, ih3⟩ := ih
    simp only [sigchld_handler, reap_eq]
    by_cases hd : s.handlers - k < K.HANDLER_MIN
    · simp only [if_pos hd]
      refine ⟨by show s.handlers - k ≤ K.HANDLER_MAX; omega, ?_, ih3⟩
      show K.HANDLER_MIN ≤ s.handlers - k + (((s.rdy : Int) + (K.HANDLER_MIN - (s.handlers - k))).toNat : Nat)
      omega
    · simp only [if_neg hd]
      refine ⟨by show s.handlers - k ≤ K.HANDLER_MAX; omega, ?_, ih3⟩
      show K.HANDLER_MIN ≤ s.handlers - k + (s.rdy : Int)
      omega
  | busy s b _ ih => exact ih
  | demand s n _ ih =>
    obtain ⟨ih1, ih2, ih3⟩ := ih
    refine ⟨ih1, ?_, ih3⟩
    show K.HANDLER_MIN ≤ s.handlers + ((s.rdy + n : Nat) : Int)
    push_cast
    omega

/-- C12: with `0 < HANDLER_MIN ≤ HANDLER_MAX`, in every state reached from the entry of the
capacity loop by iterations (busy counter read, `fork` succeeding), `SIGCHLD`
deliveries reaping live workers and the workers' changes of the two counters,
`handlers ≤ HANDLER_MAX`, and when the ready-demand counter is 0,
`HANDLER_MIN ≤ handlers ≤ HANDLER_MAX`. -/
theorem handlers_bounded (K : Limits) (hmin : 0 < K.HANDLER_MIN)
    (hmax : K.HANDLER_MIN ≤ K.HANDLER_MAX) (s : Ctl) (h : CtlReach K s) :
    s.handlers ≤ K.HANDLER_MAX
      ∧ (s.rdy = 0 → K.HANDLER_MIN ≤ s.handlers ∧ s.handlers ≤ K.HANDLER_MAX) := by
  obtain ⟨h1, h2, -⟩ := ctl_inv K hmin hmax s h
  refine ⟨h1, fun h0 => ⟨?_, h1⟩⟩
  rw [h0] at h2
  simpa using h2

/-- C12 at the state after the first spawn under `sampleLimits`: it is reachable, its
ready-demand counter is 0 and it has `HANDLER_MIN = 1` worker. -/
theorem handlers_bounded_witness :
    CtlReach sampleLimits { sampleCtl with pid := 100, handlers := 1, rdy := 0 }
      ∧ (1 : Int) ≤ ({ sampleCtl with pid := 100, handlers := 1, rdy := 0 } : Ctl).handlers :=
  have hr : CtlReach sampleLimits { sampleCtl with pid := 100, handlers := 1, rdy := 0 } :=
    CtlReach.iter sampleCtl ⟨Wait.ok, false, 100⟩
      ({ sampleCtl with pid := 100, handlers := 1, rdy := 0 },
        [Sys.semop (-1), Sys.semctl_getval, Sys.fork], true)
      (CtlReach.init sampleCtl rfl rfl rfl) rfl (by decide) (by decide)
  ⟨hr, ((handlers_bounded sampleLimits (by decide) (by decide) _ hr).2 rfl).1⟩

/-! ## Async delivery and replies -/

theorem socket_byid_from_spec (l : List lcast_sock_t) (id i0 i : Nat) (sk : lcast_sock_t)
    (h : lcast_socket_byid_from i0 l id = some (i, sk)) :
    i0 ≤ i ∧ l.get? (i - i0) = some sk ∧ sk.id = id := by
  induction l generalizing i0 with
  | nil => simp [lcast_socket_byid_from] at h
  | cons p rest ih =>
    unfold lcast_socket_byid_from at h
    by_cases hp : p.id = id
    · simp only [hp, if_true, Option.some.injEq, Prod.mk.injEq] at h
      obtain ⟨rfl, rfl⟩ := h
      simp [hp]
    · simp only [hp, if_false] at h
      obtain ⟨h1, h2, h3⟩ := ih (i0 + 1) h
      refine ⟨by omega, ?_, h3⟩
      have : i - i0 = (i - (i0 + 1)) + 1 := by omega
      rw [this]
      simpa using h2

theorem socket_byid_from_set (l : List lcast_sock_t) (id i0 i t : Nat) (sk : lcast_sock_t)
    (h : lcast_socket_byid_from i0 l id = some (i, sk)) :
    lcast_socket_byid_from i0 (l.set (i - i0) { sk with token := t }) id
      = some (i, { sk with token := t }) := by
  induction l generalizing i0 with
  | nil => simp [lcast_socket_byid_from] at h
  | cons p rest ih =>
    unfold lcast_socket_byid_from at h
    by_cases hp : p.id = id
    · simp only [hp, if_true, Option.some.injEq, Prod.mk.injEq] at h
      obtain ⟨rfl, rfl⟩ := h
      simp [lcast_socket_byid_from, hp]
    · simp only [hp, if_false] at h
      have h1 := (socket_byid_from_spec rest id (i0 + 1) i sk h).1
      have : i - i0 = (i - (i0 + 1)) + 1 := by omega
      rw [this, List.set_cons_succ]
      unfold lcast_socket_byid_from
      simp only [hp, if_false]
      exact ih (i0 + 1) h

theorem socket_listen_eq (s : St) (c : Option Nat) (req : lcast_frame_t) (i : Nat)
    (sk : lcast_sock_t) (hreg : lcast_socket_byid s req.id = some (i, sk)) :
    lcast_cmd_socket_listen s c req
      = .done (Ret.success,
          { s with websock := c, lsock := s.lsock.set i { sk with token := req.token } },
          [Event.lc_socket_listen sk.sock]) := by
  simp [lcast_cmd_socket_listen, hreg]

theorem take_length_takeWhile {α : Type} (p : α → Bool) (l : List α) :
    l.take (l.takeWhile p).length = l.takeWhile p := by
  induction l with
  | nil => rfl
  | cons a rest ih =>
    by_cases h : p a
    · simp [List.takeWhile_cons, h, ih]
    · simp [List.takeWhile_cons, h]

theorem getmsg_replies_eq (env : Env) (s : St) (req : lcast_frame_t)
    (msgs : List lc_messagelist_t) (hlen : ∀ m ∈ msgs, (cstr m.data).length < 2 ^ 32) :
    getmsg_replies env s req msgs
      = .done (msgs.map (fun m =>
          Event.ws_send s.websock WS_OPCODE_BINARY
            (frame_head { opcode := env.LCAST_OP_SOCKET_MSG, len := 0, id := req.id, id2 := 0,
                          token := req.token, timestamp := m.timestamp } (cstr m.data).length
              ++ cstr m.data))) := by
  induction msgs with
  | nil => rfl
  | cons m rest ih =>
    have hm : (cstr m.data).length % 2 ^ 32 = (cstr m.data).length :=
      Nat.mod_eq_of_lt (hlen m (List.mem_cons_self _ _))
    have hle : (cstr m.data).length ≤ m.data.length := (List.takeWhile_sublist _).length_le
    have ht : m.data.take (cstr m.data).length = cstr m.data := take_length_takeWhile _ _
    simp only [getmsg_replies, hm, frame_send_take _ _ _ _ hle, ht,
      ih (fun x hx => hlen x (List.mem_cons_of_mem _ hx)), bind, Run.bind, pure, List.map_cons,
      List.singleton_append]

theorem recv_eq (env : Env) (s : St) (msg : lc_message_t) (skip : Nat)
    (hskip : skip = if msg.op = env.LC_OP_RET then env.sizeof_lc_seq_t + env.sizeof_lc_rnd_t else 0)
    (hle : skip ≤ msg.len) (hbuf : msg.len ≤ msg.data.length) (h32 : msg.len < 2 ^ 32) :
    lcast_recv env s msg
      = .done [Event.ws_send s.websock WS_OPCODE_BINARY
          (frame_head
              { opcode := if msg.op = env.LC_OP_RET then env.LCAST_OP_CHANNEL_GETVAL
                          else if msg.op = env.LC_OP_SET then env.LCAST_OP_CHANNEL_SETVAL
                          else env.LCAST_OP_SOCKET_MSG,
                len := msg.len - skip, id := msg.sockid, id2 := 0,
                token := match lcast_socket_byid s msg.sockid with
                  | some sk => sk.2.token
                  | none => 0,
                timestamp := msg.timestamp } (msg.len - skip)
            ++ (msg.data.drop skip).take (msg.len - skip))] := by
  have h1 : (msg.len + 2 ^ 64 - skip % 2 ^ 64) % 2 ^ 64 % 2 ^ 32 = msg.len - skip := by
    simp only [Nat.reducePow] at h32 ⊢
    omega
  have h2 : msg.len - skip ≤ (msg.data.drop skip).length := by
    rw [List.length_drop]
    omega
  unfold lcast_recv
  simp only [← hskip, h1]
  exact frame_send_take _ _ _ _ h2

/-- C15: for a message whose buffer holds its `len` bytes, with `len` below 2^32 and, for
`LC_OP_RET`, not shorter than the sequence and nonce prefix, `lcast_recv` sends
exactly one frame to `websock`: opcode `channel.getval` and the data behind the
prefix for `LC_OP_RET`, opcode `channel.setval` and all the data for `LC_OP_SET`,
opcode `socket.message` and all the data otherwise; id and timestamp are those of
the message; the token is that of the first registry entry with the socket id, 0
when there is none; and after `socket.listen` on a registered id that token is the
one of the request and `websock` the requesting connection. -/
theorem recv_one_frame (env : Env) (s : St) (msg : lc_message_t)
    (hops : env.LC_OP_RET ≠ env.LC_OP_SET)
    (hpre : msg.op = env.LC_OP_RET → env.sizeof_lc_seq_t + env.sizeof_lc_rnd_t ≤ msg.len)
    (hbuf : msg.len ≤ msg.data.length) (h32 : msg.len < 2 ^ 32) :
    (msg.op = env.LC_OP_RET →
      lcast_recv env s msg
        = .done [Event.ws_send s.websock WS_OPCODE_BINARY
            (frame_head
                { opcode := env.LCAST_OP_CHANNEL_GETVAL,
                  len := msg.len - (env.sizeof_lc_seq_t + env.sizeof_lc_rnd_t),
                  id := msg.sockid, id2 := 0,
                  token := match lcast_socket_byid s msg.sockid with
                    | some sk => sk.2.token
                    | none => 0,
                  timestamp := msg.timestamp }
                (msg.len - (env.sizeof_lc_seq_t + env.sizeof_lc_rnd_t))
              ++ (msg.data.drop (env.sizeof_lc_seq_t + env.sizeof_lc_rnd_t)).take
                    (msg.len - (env.sizeof_lc_seq_t + env.sizeof_lc_rnd_t)))])
    ∧ (msg.op = env.LC_OP_SET →
      lcast_recv env s msg
        = .done [Event.ws_send s.websock WS_OPCODE_BINARY
            (frame_head
                { opcode := env.LCAST_OP_CHANNEL_SETVAL, len := msg.len,
                  id := msg.sockid, id2 := 0,
                  token := match lcast_socket_byid s msg.sockid with
                    | some sk => sk.2.token
                    | none => 0,
                  timestamp := msg.timestamp } msg.len
              ++ msg.data.take msg.len)])
    ∧ (msg.op ≠ env.LC_OP_RET → msg.op ≠ env.LC_OP_SET →
      lcast_recv env s msg
        = .done [Event.ws_send s.websock WS_OPCODE_BINARY
            (frame_head
                { opcode := env.LCAST_OP_SOCKET_MSG, len := msg.len,
                  id := msg.sockid, id2 := 0,
                  token := match lcast_socket_byid s msg.sockid with
                    | some sk => sk.2.token
                    | none => 0,
                  timestamp := msg.timestamp } msg.len
              ++ msg.data.take msg.len)])
    ∧ (lcast_socket_byid s msg.sockid = none →
        (match lcast_socket_byid s msg.sockid with
          | some sk => sk.2.token
          | none => 0) = 0)
    ∧ ∀ (c : Option Nat) (rq : lcast_frame_t) (i : Nat) (sk : lcast_sock_t),
        lcast_socket_byid s rq.id = some (i, sk) →
        ∃ s1 : St, lcast_cmd_socket_listen s c rq
              = .done (Ret.success, s1, [Event.lc_socket_listen sk.sock])
          ∧ s1.websock = c
          ∧ (match lcast_socket_byid s1 rq.id with
              | some sk => sk.2.token
              | none => 0) = rq.token := by
  refine ⟨?_, ?_, ?_, ?_, ?_⟩
  · intro h
    have := recv_eq env s msg (env.sizeof_lc_seq_t + env.sizeof_lc_rnd_t) (by simp [h])
      (hpre h) hbuf h32
    simpa [h] using this
  · intro h
    have hne : msg.op ≠ env.LC_OP_RET := by rw [h]; exact fun e => hops e.symm
    have := recv_eq env s msg 0 (by simp [hne]) (Nat.zero_le _) hbuf h32
    simpa [h, hne, Ne.symm hops] using this
  · intro hne hne2
    have := recv_eq env s msg 0 (by simp [hne]) (Nat.zero_le _) hbuf h32
    simpa [hne, hne2] using this
  · intro h
    rw [h]
  · intro c rq i sk hreg
    refine ⟨_, socket_listen_eq s c rq i sk hreg, rfl, ?_⟩
    have := socket_byid_from_set s.lsock rq.id 0 i rq.token sk hreg
    simp only [Nat.sub_zero] at this
    simp only [lcast_socket_byid, this]

/-- C15 at a query response of 19 bytes for the socket id 1, which listens with token 5. -/
theorem recv_one_frame_witness :
    lcast_recv sampleEnv sampleSt
        ⟨3, 19, [0, 0, 0, 0, 0, 0, 0, 1, 9, 9, 9, 9, 9, 9, 9, 9, 118, 97, 108], 1, 1700000000⟩
      = .done [Event.ws_send (some 1) WS_OPCODE_BINARY
          (frame_head ⟨12, 3, 1, 0, 5, 1700000000⟩ 3 ++ [118, 97, 108])] :=
  (recv_one_frame sampleEnv sampleSt
    ⟨3, 19, [0, 0, 0, 0, 0, 0, 0, 1, 9, 9, 9, 9, 9, 9, 9, 9, 118, 97, 108], 1, 1700000000⟩
    (by decide) (by decide) (by decide) (by decide)).1 rfl

/-- C16 as amended: on a registered channel, when the query is created and the filter loop
completes, `channel.getmsg` sends one frame per message of the query result, in
order, to `websock`, with opcode `socket.message`, the id and token of the request,
the timestamp of the message and as payload the C string at `msg->data` (its
length is taken with `strlen`, assumed below 2^32): the bytes before the first
zero byte, which is all of the data when it holds no zero byte. -/
theorem getmsg_replays (env : Env) (s : St) (req : lcast_frame_t) (payload : Option Bytes)
    (i : Nat) (ch : lcast_chan_t) (fs : List (Nat × QVal)) (msgs : List lc_messagelist_t)
    (hreg : lcast_channel_byid s req.id = .done (some (i, ch)))
    (hq : env.lc_query_new = 0)
    (hloop : getmsg_loop env payload req.len env.fuel 0 = .done fs)
    (hmsgs : env.lc_query_exec ((env.LC_QUERY_CHANNEL, QVal.str ch.name) :: fs) = msgs)
    (hlen : ∀ m ∈ msgs, (cstr m.data).length < 2 ^ 32) :
    lcast_cmd_channel_getmsg env s req payload
        = .done (Ret.success, s,
            [Event.lc_query_new, Event.lc_query_push env.LC_QUERY_CHANNEL (QVal.str ch.name)]
              ++ fs.map (fun f => Event.lc_query_push f.1 f.2)
              ++ [Event.lc_query_exec]
              ++ msgs.map (fun m =>
                  Event.ws_send s.websock WS_OPCODE_BINARY
                    (frame_head { opcode := env.LCAST_OP_SOCKET_MSG, len := 0, id := req.id,
                                  id2 := 0, token := req.token, timestamp := m.timestamp }
                        (cstr m.data).length
                      ++ cstr m.data))
              ++ [Event.lc_msglist_free, Event.lc_query_free])
      ∧ ∀ m : lc_messagelist_t, (∀ b ∈ m.data, b.val ≠ 0) → cstr m.data = m.data := by
  constructor
  · simp [lcast_cmd_channel_getmsg, hreg, hq, hloop, hmsgs, getmsg_replies_eq env s req msgs hlen,
      bind, Run.bind, pure]
  · intro m hm
    unfold cstr
    rw [List.takeWhile_eq_self_iff]
    intro b hb
    simpa using hm b hb

/-- C16 as amended, at a query result of two messages. -/
theorem getmsg_replays_witness :
    lcast_cmd_channel_getmsg replayEnv sampleSt ⟨11, 0, 1, 0, 7, 0⟩ none
      = .done (Ret.success, sampleSt,
          [Event.lc_query_new, Event.lc_query_push 128 (QVal.str mychannel), Event.lc_query_exec,
           Event.ws_send (some 1) WS_OPCODE_BINARY
             (frame_head ⟨9, 0, 1, 0, 7, 1700000000⟩ 1 ++ [97]),
           Event.ws_send (some 1) WS_OPCODE_BINARY
             (frame_head ⟨9, 0, 1, 0, 7, 1700000001⟩ 2 ++ [104, 105]),
           Event.lc_msglist_free, Event.lc_query_free]) :=
  (getmsg_replays replayEnv sampleSt ⟨11, 0, 1, 0, 7, 0⟩ none 0 ⟨0, 1, mychannel, false⟩ []
    [⟨1700000000, [97, 0, 98]⟩, ⟨1700000001, [104, 105]⟩]
    (by decide) (by decide) (by decide) (by decide) (by decide)).1

/-- C16 as stated fails: the query returns a message whose data is the three bytes
`a`, 0, `b`; the reply frame carries the one byte `a`. -/
theorem getmsg_replay_counterexample :
    replayEnv.lc_query_exec [(128, QVal.str mychannel)]
        = [⟨1700000000, [97, 0, 98]⟩, ⟨1700000001, [104, 105]⟩]
    ∧ lcast_cmd_channel_getmsg replayEnv sampleSt ⟨11, 0, 1, 0, 7, 0⟩ none
      = .done (Ret.success, sampleSt,
          [Event.lc_query_new, Event.lc_query_push 128 (QVal.str mychannel), Event.lc_query_exec,
           Event.ws_send (some 1) WS_OPCODE_BINARY
             (frame_head ⟨9, 0, 1, 0, 7, 1700000000⟩ 1 ++ [97]),
           Event.ws_send (some 1) WS_OPCODE_BINARY
             (frame_head ⟨9, 0, 1, 0, 7, 1700000001⟩ 2 ++ [104, 105]),
           Event.lc_msglist_free, Event.lc_query_free]) := by
  decide

/-- C17 as amended: `socket.listen` on a registered socket id stores the token of the
request in the entry found (the other entries and the length of the registry are
unchanged), makes the requesting connection `websock`, and its only call is
`lc_socket_listen` on the socket of that entry: it sends no frame. -/
theorem socket_listen_records (s : St) (c : Option Nat) (req : lcast_frame_t) (i : Nat)
    (sk : lcast_sock_t) (hreg : lcast_socket_byid s req.id = some (i, sk)) :
    lcast_cmd_socket_listen s c req
        = .done (Ret.success,
            { s with websock := c, lsock := s.lsock.set i { sk with token := req.token } },
            [Event.lc_socket_listen sk.sock])
      ∧ s.lsock.get? i = some sk
      ∧ (s.lsock.set i { sk with token := req.token }).get? i = some { sk with token := req.token }
      ∧ (∀ j : Nat, j ≠ i →
          (s.lsock.set i { sk with token := req.token }).get? j = s.lsock.get? j)
      ∧ (s.lsock.set i { sk with token := req.token }).length = s.lsock.length := by
  have h := socket_byid_from_spec s.lsock req.id 0 i sk hreg
  simp only [Nat.sub_zero] at h
  have hi : i < s.lsock.length := by
    by_contra hn
    have := List.get?_eq_none.mpr (not_lt.mp hn)
    rw [this] at h
    exact absurd h.2.1 (by simp)
  refine ⟨socket_listen_eq s c req i sk hreg, h.2.1, ?_, ?_, by simp⟩
  · simp [List.getElem?_set, hi]
  · intro j hj
    simp [List.getElem?_set, Ne.symm hj]

/-- C17 as amended, at the registered socket id 1 with the token 9. -/
theorem socket_listen_records_witness :
    lcast_cmd_socket_listen sampleSt (some 7) ⟨6, 0, 1, 0, 9, 0⟩
      = .done (Ret.success,
          { sampleSt with websock := some 7, lsock := [{ sock := 0, id := 1, token := 9 }] },
          [Event.lc_socket_listen 0]) :=
  (socket_listen_records sampleSt (some 7) ⟨6, 0, 1, 0, 9, 0⟩ 0 ⟨0, 1, 5⟩ (by decide)).1

/-- C17 as stated fails: a final frame carrying `socket.listen` for the registered socket
id 1 makes the handler call `lc_socket_listen` and nothing else; no frame is sent. -/
theorem socket_listen_no_ack_counterexample :
    feed sampleEnv sampleSt (some 7) [mkframe true WS_OPCODE_BINARY ⟨6, 0, 1, 0, 9, 0⟩ []]
      = .done ({ sampleSt with websock := some 7, lsock := [{ sock := 0, id := 1, token := 9 }] },
          [Event.lc_socket_listen 0]) := by
  decide

/-! ## Reassembly state and the listening sockets -/

theorem exit_close_eq (socks : List Int) (h : Nat) :
    exit_close socks h
      = if h = 0 ∨ h < socks.length then
          .done ((List.range h).reverse.map (fun j => Sys.close (socks.getD (j + 1) 0)))
        else .fault := by
  induction h with
  | zero => simp [exit_close]
  | succ h ih =>
    unfold exit_close
    by_cases hl : h + 1 < socks.length
    · have hl2 : h = 0 ∨ h < socks.length := Or.inr (by omega)
      rw [List.get?_eq_get hl, ih, if_pos hl2]
      simp [hl, List.range_succ, bind, Run.bind, pure, List.getD_eq_getElem?_getD, hl]
    · rw [List.get?_eq_none.mpr (not_lt.mp hl)]
      simp [hl]

theorem main_loop_stopped (K : Limits) (ticks : List Tick) (s : Ctl) :
    main_loop K ticks { s with run := 0 } = .done ({ s with run := 0 }, []) := by
  cases ticks <;> simp [main_loop]

/-- C18 fails on the code: after a final binary frame with three bytes of payload the
stash is released but `len` is still 3; a continuation frame that follows is
copied to offset 3 of a fresh buffer, behind three uninitialised bytes, and its
command `channel.send` publishes the first two bytes of that buffer instead of
the payload; the same continuation frame in a state with `len = 0` publishes its
payload. -/
theorem reassembly_length_kept :
    feed junkEnv sampleSt (some 1) [mkframe true WS_OPCODE_BINARY ⟨18, 0, 1, 0, 0, 0⟩ [1, 2, 3]]
      = .done ({ sampleSt with stash := none, len := 3 }, [Event.lc_msg_send 0 [1, 2, 3]])
    ∧ stash_frame junkEnv { sampleSt with stash := none, len := 3 }
        (mkframe true WS_OPCODE_CONTINUE ⟨18, 0, 1, 0, 0, 0⟩ [7, 8]) ⟨18, 2, 1, 0, 0, 0⟩
      = .done { sampleSt with stash := some [170, 170, 170, 7, 8], len := 5 }
    ∧ feed junkEnv sampleSt (some 1)
        [mkframe true WS_OPCODE_BINARY ⟨18, 0, 1, 0, 0, 0⟩ [1, 2, 3],
         mkframe true WS_OPCODE_CONTINUE ⟨18, 0, 1, 0, 0, 0⟩ [7, 8]]
      = .done ({ sampleSt with stash := none, len := 5 },
          [Event.lc_msg_send 0 [1, 2, 3], Event.lc_msg_send 0 [170, 170]])
    ∧ feed junkEnv sampleSt (some 1) [mkframe true WS_OPCODE_CONTINUE ⟨18, 0, 1, 0, 0, 0⟩ [7, 8]]
      = .done ({ sampleSt with stash := none, len := 2 }, [Event.lc_msg_send 0 [7, 8]]) := by
  decide

/-- C19 fails on the code: for one stream listener whose only address gets the socket 3
and whose `bind` fails, `server_listen` stores 3, calls `listen` on it and returns
1; a second listener whose `bind` fails is counted as well.  A listener whose
`socket` call fails is skipped, and when no listener is counted `main` returns 0
without `semget` and without `fork`. -/
theorem server_listen_counts_unbound :
    server_listen sampleLimits [⟨true, 0, [⟨3, 0, -1⟩], 0⟩]
      = ⟨some 1, [3],
          [Sys.getaddrinfo, Sys.socket, Sys.setsockopt 3, Sys.bind 3, Sys.freeaddrinfo,
           Sys.listen 3]⟩
    ∧ server_listen sampleLimits [⟨true, 0, [⟨3, 0, 0⟩], 0⟩, ⟨true, 0, [⟨4, 0, -1⟩], 0⟩]
      = ⟨some 2, [3, 4],
          [Sys.getaddrinfo, Sys.socket, Sys.setsockopt 3, Sys.bind 3, Sys.freeaddrinfo,
           Sys.listen 3,
           Sys.getaddrinfo, Sys.socket, Sys.setsockopt 4, Sys.bind 4, Sys.freeaddrinfo,
           Sys.listen 4]⟩
    ∧ server_listen sampleLimits [⟨true, 0, [⟨-1, 0, 0⟩], 0⟩]
      = ⟨some 0, [0], [Sys.getaddrinfo, Sys.socket, Sys.freeaddrinfo]⟩
    ∧ main sampleLimits ⟨0, 1, [⟨true, 0, [⟨-1, 0, 0⟩], 0⟩], 0, 0, 0, []⟩
      = .done (Exit.status 0,
          [Sys.config_init, Sys.config_load_modules, Sys.getaddrinfo, Sys.socket,
           Sys.freeaddrinfo, Sys.free_socks, Sys.config_unload_modules, Sys.config_close]) := by
  decide

/-- C20 fails on the code: with `run = 0` the capacity loop makes no further call, but
the exit path closes the elements of `socks` at the indices `handlers` down to 1:
with the listening sockets 3 and 4 it closes nothing when there is no worker,
only 4 with one worker, and reads behind the array with two workers. -/
theorem exit_path_closes_by_handler_count :
    (∀ (K : Limits) (ticks : List Tick) (s : Ctl),
        main_loop K ticks { s with run := 0 } = .done ({ s with run := 0 }, []))
    ∧ (∀ (socks : List Int) (h : Nat),
        exit_close socks h
          = if h = 0 ∨ h < socks.length then
              .done ((List.range h).reverse.map (fun j => Sys.close (socks.getD (j + 1) 0)))
            else .fault)
    ∧ exit_controller { sampleCtl with run := 0, handlers := 0 }
        = .done ({ sampleCtl with run := 0, handlers := 0 },
            [Sys.free_socks, Sys.config_unload_modules, Sys.config_close])
    ∧ exit_controller { sampleCtl with run := 0, handlers := 1 }
        = .done ({ sampleCtl with run := 0, handlers := 0 },
            [Sys.close 4, Sys.free_socks, Sys.config_unload_modules, Sys.config_close])
    ∧ exit_controller { sampleCtl with run := 0, handlers := 2 } = .fault := by
  refine ⟨main_loop_stopped, exit_close_eq, ?_, ?_, ?_⟩ <;> decide

/-! ## Dispatch of a fragmented message -/

theorem frame_payload_some (f : ws_frame_t) (p : Bytes) (h : frame_payload f = some p) :
    ∃ req, lcast_frame_decode f = .done req ∧ sizeof_lcast_frame_t + req.len ≤ f.data.length
      ∧ p = (f.data.drop sizeof_lcast_frame_t).take req.len ∧ p.length = req.len := by
  unfold frame_payload at h
  cases hd : lcast_frame_decode f with
  | done req =>
    simp only [hd] at h
    by_cases hl : sizeof_lcast_frame_t + req.len ≤ f.data.length
    · simp only [hl, if_true, Option.some.injEq] at h
      refine ⟨req, rfl, hl, h.symm, ?_⟩
      rw [← h, List.length_take, List.length_drop]
      omega
    · simp [hl] at h
  | fault => simp [hd] at h
  | nofuel => simp [hd] at h

theorem realloc_take (env : Env) (acc : Bytes) (n : Nat) :
    (realloc env (some acc) (n + acc.length)).take acc.length = acc := by
  have h : acc.take (n + acc.length) = acc := List.take_of_length_le (by omega)
  simp [realloc, h]

theorem handler_accumulates (env : Env) (s : St) (c : Option Nat) (f : ws_frame_t) (p : Bytes)
    (hfin : f.fin = false) (hop : f.opcode ≤ 2) (hp : frame_payload f = some p)
    (hlen : f.opcode = WS_OPCODE_CONTINUE → s.len + p.length < 2 ^ 64) :
    lcast_cmd_handler env s c f
      = .done (Ret.success,
          (if f.opcode = WS_OPCODE_CONTINUE then
            { s with stash := some ((realloc env s.stash (p.length + s.len)).take s.len ++ p),
                     len := s.len + p.length }
          else { s with stash := some p, len := p.length }), []) := by
  obtain ⟨req, hdec, hdata, rfl, hpl⟩ := frame_payload_some f p hp
  rw [hpl] at hlen ⊢
  have hreq : req.len < 2 ^ 64 := lt_trans (decode_len_lt f req hdec) (by decide)
  simp only [lcast_cmd_handler, hdec, hop, if_true, stash_frame_eq env s f req hdata hlen hreq,
    hfin, bind, Run.bind, pure]
  by_cases hc : f.opcode = WS_OPCODE_CONTINUE <;> simp [hc]

theorem feed_continuations (env : Env) (c : Option Nat) (mids : List (ws_frame_t × Bytes))
    (rest : List ws_frame_t) :
    ∀ (s : St) (acc : Bytes), s.stash = some acc → s.len = acc.length →
      (∀ m ∈ mids, m.1.fin = false ∧ m.1.opcode = WS_OPCODE_CONTINUE
          ∧ frame_payload m.1 = some m.2) →
      (acc ++ (mids.map Prod.snd).flatten).length < 2 ^ 64 →
      feed env s c (mids.map Prod.fst ++ rest)
        = feed env { s with stash := some (acc ++ (mids.map Prod.snd).flatten),
                            len := (acc ++ (mids.map Prod.snd).flatten).length } c rest := by
  induction mids with
  | nil =>
    intro s acc hs hl _ _
    obtain ⟨w, k, x, ls, lc, st, ln, ns, nc⟩ := s
    simp only at hs hl
    subst hs hl
    simp
  | cons m mids ih =>
    intro s acc hs hl hm htot
    obtain ⟨hfin, hop, hp⟩ := hm m (List.mem_cons_self _ _)
    have htot2 : (acc ++ m.2 ++ (mids.map Prod.snd).flatten).length < 2 ^ 64 := by
      simpa [List.append_assoc] using htot
    have hlen : s.len + m.2.length < 2 ^ 64 := by
      rw [hl]
      simp only [List.length_append] at htot2
      omega
    have hstep := handler_accumulates env s c m.1 m.2 hfin (by rw [hop]; decide) hp
      (fun _ => hlen)
    rw [if_pos hop, hs, hl, realloc_take] at hstep
    have hrec := ih { s with stash := some (acc ++ m.2), len := acc.length + m.2.length }
      (acc ++ m.2) rfl (by simp) (fun x hx => hm x (List.mem_cons_of_mem _ hx)) htot2
    simp only [List.map_cons, List.cons_append, feed, hstep, bind, Run.bind, List.nil_append]
    have e : (List.map Prod.fst mids).append rest = List.map Prod.fst mids ++ rest := rfl
    rw [e, hrec]
    simp only [List.flatten_cons, List.append_assoc, List.length_append]
    cases feed env
      { s with stash := some (acc ++ (m.2 ++ (mids.map Prod.snd).flatten)),
               len := acc.length + (m.2.length + (mids.map Prod.snd).flatten.length) } c rest <;> rfl

theorem handler_dispatches_stash (env : Env) (s : St) (c : Option Nat) (f : ws_frame_t)
    (pl acc : Bytes) (req : lcast_frame_t) (cmd : lcast_cmd)
    (hs : s.stash = some acc) (hl : s.len = acc.length)
    (hfin : f.fin = true) (hop : f.opcode = WS_OPCODE_CONTINUE)
    (hp : frame_payload f = some pl) (hreq : lcast_frame_decode f = .done req)
    (hcmd : env.LCAST_OPCODES req.opcode = some cmd)
    (htot : (acc ++ pl).length < 2 ^ 64) :
    lcast_cmd_handler env s c f
      = (cmd.run env { s with stash := some (acc ++ pl), len := (acc ++ pl).length } c req
            (some (acc ++ pl))).bind
          (fun out => .done (Ret.success, { out.2.1 with stash := none }, out.2.2)) := by
  obtain ⟨req2, hdec, hdata, rfl, hpl⟩ := frame_payload_some f pl hp
  rw [hreq] at hdec
  cases hdec
  have hr64 : req.len < 2 ^ 64 := lt_trans (decode_len_lt f req hreq) (by decide)
  have hlen : f.opcode = WS_OPCODE_CONTINUE → s.len + req.len < 2 ^ 64 := by
    intro _
    rw [hl]
    simp only [List.length_append, hpl] at htot
    exact htot
  have hop2 : f.opcode ≤ 2 := by rw [hop]; decide
  simp only [lcast_cmd_handler, hreq, hop2, if_true, stash_frame_eq env s f req hdata hlen hr64,
    hfin, hcmd, bind, Run.bind, pure, if_pos hop, hs, hl]
  have hre := realloc_take env acc req.len
  rw [hre]
  simp only [List.length_append, hpl]

/-- C21: for a message sent as a non-final data frame that is not a continuation, any
number of non-final continuation frames and a final continuation frame, each
carrying the payload its header declares, `lcast_cmd_handler` runs the command
of the last frame's header exactly once, with that header (its `len` is the
length of the last fragment's payload, not the total) and with the stash, the
concatenation of all the payloads, as payload, then releases the stash; a read
of `req->len` bytes at the start of the payload yields the first `len` bytes of
the concatenation. -/
theorem fragments_dispatch (env : Env) (s : St) (c : Option Nat)
    (first : ws_frame_t) (p0 : Bytes) (mids : List (ws_frame_t × Bytes))
    (last : ws_frame_t) (pl : Bytes) (req : lcast_frame_t) (cmd : lcast_cmd)
    (hfirst : first.fin = false ∧ first.opcode ≤ 2 ∧ first.opcode ≠ WS_OPCODE_CONTINUE
      ∧ frame_payload first = some p0)
    (hmids : ∀ m ∈ mids, m.1.fin = false ∧ m.1.opcode = WS_OPCODE_CONTINUE
      ∧ frame_payload m.1 = some m.2)
    (hlast : last.fin = true ∧ last.opcode = WS_OPCODE_CONTINUE ∧ frame_payload last = some pl)
    (hreq : lcast_frame_decode last = .done req)
    (hcmd : env.LCAST_OPCODES req.opcode = some cmd)
    (htotal : (p0 ++ (mids.map Prod.snd).flatten ++ pl).length < 2 ^ 64) :
    req.len = pl.length
      ∧ feed env s c (first :: mids.map Prod.fst ++ [last])
          = (cmd.run env
                { s with stash := some (p0 ++ (mids.map Prod.snd).flatten ++ pl),
                         len := (p0 ++ (mids.map Prod.snd).flatten ++ pl).length }
                c req (some (p0 ++ (mids.map Prod.snd).flatten ++ pl))).bind
              (fun out => .done ({ out.2.1 with stash := none }, out.2.2))
      ∧ rd (some (p0 ++ (mids.map Prod.snd).flatten ++ pl)) 0 req.len
          = .done ((p0 ++ (mids.map Prod.snd).flatten ++ pl).take pl.length) := by
  obtain ⟨hf1, hf2, hf3, hf4⟩ := hfirst
  obtain ⟨hl1, hl2, hl3⟩ := hlast
  obtain ⟨req2, hdec, -, -, hpl⟩ := frame_payload_some last pl hl3
  rw [hreq] at hdec
  cases hdec
  have hacc : (p0 ++ (mids.map Prod.snd).flatten).length < 2 ^ 64 := by
    simp only [List.length_append] at htotal ⊢
    omega
  have h1 := handler_accumulates env s c first p0 hf1 hf2 hf4 (fun h => absurd h hf3)
  rw [if_neg hf3] at h1
  have h2 := feed_continuations env c mids [last] { s with stash := some p0, len := p0.length }
    p0 rfl rfl hmids hacc
  have h3 := handler_dispatches_stash env
    { s with stash := some (p0 ++ (mids.map Prod.snd).flatten),
             len := (p0 ++ (mids.map Prod.snd).flatten).length } c last pl
    (p0 ++ (mids.map Prod.snd).flatten) req cmd rfl rfl hl1 hl2 hl3 hreq hcmd htotal
  refine ⟨hpl.symm, ?_, ?_⟩
  · have e : first :: mids.map Prod.fst ++ [last] = first :: (mids.map Prod.fst ++ [last]) := rfl
    rw [e]
    have e3 : feed env s c (first :: (mids.map Prod.fst ++ [last]))
        = (feed env { s with stash := some p0, len := p0.length } c
            (mids.map Prod.fst ++ [last])).bind (fun r => .done (r.1, [] ++ r.2)) := by
      rw [feed]
      simp only [h1, bind, Run.bind, pure]
    rw [e3, h2]
    simp only [feed, h3, bind, Run.bind, pure]
    cases cmd.run env
      { s with stash := some (p0 ++ (mids.map Prod.snd).flatten ++ pl),
               len := (p0 ++ (mids.map Prod.snd).flatten ++ pl).length } c req
      (some (p0 ++ (mids.map Prod.snd).flatten ++ pl)) <;> simp [Run.bind, pure]
  · rw [← hpl]
    exact rd_take _ _ (by simp only [List.length_append]; omega)

/-- C21 at `channel.new` for `mychannel` sent as `my`, `chan`, `nel`: the command runs with
the length 3 on the stash `mychannel` and registers the channel `myc`. -/
theorem fragments_dispatch_witness :
    feed sampleEnv St.init (some 1)
        [mkframe false WS_OPCODE_BINARY ⟨10, 0, 0, 0, 42, 0⟩ [109, 121],
         mkframe false WS_OPCODE_CONTINUE ⟨10, 0, 0, 0, 42, 0⟩ [99, 104, 97, 110],
         mkframe true WS_OPCODE_CONTINUE ⟨10, 0, 0, 0, 42, 0⟩ [110, 101, 108]]
      = (lcast_cmd.channel_new.run sampleEnv
            { St.init with stash := some mychannel, len := 9 } (some 1) ⟨10, 3, 0, 0, 42, 0⟩
            (some mychannel)).bind
          (fun out => .done ({ out.2.1 with stash := none }, out.2.2))
    ∧ feed sampleEnv St.init (some 1)
        [mkframe false WS_OPCODE_BINARY ⟨10, 0, 0, 0, 42, 0⟩ [109, 121],
         mkframe false WS_OPCODE_CONTINUE ⟨10, 0, 0, 0, 42, 0⟩ [99, 104, 97, 110],
         mkframe true WS_OPCODE_CONTINUE ⟨10, 0, 0, 0, 42, 0⟩ [110, 101, 108]]
      = .done ({ St.init with
                 keepalive_thread := true, lctx := true, len := 9, nchan := 1,
                 lchan := [{ chan := 0, id := 1, name := [109, 121, 99], freed := false }] },
          [Event.lc_ctx_new, Event.lc_db_open, Event.pthread_create,
           Event.lc_channel_new 0 [109, 121, 99],
           Event.ws_send (some 1) WS_OPCODE_BINARY (frame_head ⟨10, 0, 1, 0, 42, 0⟩ 0)]) :=
  ⟨(fragments_dispatch sampleEnv St.init (some 1)
      (mkframe false WS_OPCODE_BINARY ⟨10, 0, 0, 0, 42, 0⟩ [109, 121]) [109, 121]
      [(mkframe false WS_OPCODE_CONTINUE ⟨10, 0, 0, 0, 42, 0⟩ [99, 104, 97, 110],
        [99, 104, 97, 110])]
      (mkframe true WS_OPCODE_CONTINUE ⟨10, 0, 0, 0, 42, 0⟩ [110, 101, 108]) [110, 101, 108]
      ⟨10, 3, 0, 0, 42, 0⟩ lcast_cmd.channel_new
      (by decide) (by decide) (by decide) (by decide) (by decide) (by decide)).2.1,
   by decide⟩

/-! ## Missing bounds in `channel.getmsg` and `channel.setval` -/

/-- C22 fails on the code: when the payload buffer holds one KEY record whose value has
2^32 - 6 bytes, the offset after the record, `6 + len` modulo 2^32, is 0 again,
and the filter loop started at offset 0 with any positive `req->len` uses up
every budget of iterations. -/
theorem getmsg_loop_wraps (env : Env) (value : Bytes) (reqlen fuel : Nat)
    (hkey : env.LC_QUERY_KEY < 2 ^ 16) (hval : value.length = 2 ^ 32 - 6) (hreq : 0 < reqlen) :
    getmsg_loop env (some (filter_record env.LC_QUERY_KEY value)) reqlen fuel 0 = .nofuel
      ∧ (6 + value.length) % 2 ^ 32 = 0 := by
  have hv32 : value.length < 2 ^ 32 := by rw [hval]; decide
  have r1 : rd (some (filter_record env.LC_QUERY_KEY value)) 0 2 = .done (be16 env.LC_QUERY_KEY) := by
    have := rd_mid [] (be16 env.LC_QUERY_KEY) (be32 value.length ++ value)
    simpa [filter_record, be16] using this
  have r2 : rd (some (filter_record env.LC_QUERY_KEY value)) 2 4 = .done (be32 value.length) := by
    have := rd_mid (be16 env.LC_QUERY_KEY) (be32 value.length) value
    simpa [filter_record, be16, be32] using this
  have r3 : rd (some (filter_record env.LC_QUERY_KEY value)) 6 value.length = .done value := by
    have := rd_mid (be16 env.LC_QUERY_KEY ++ be32 value.length) value []
    have e : (be16 env.LC_QUERY_KEY ++ be32 value.length).length = 6 := by simp [be16, be32]
    rw [e, List.append_nil] at this
    exact this
  have m3 : (6 + value.length) % 2 ^ 32 = 0 := by rw [hval]; decide
  have m4 : ¬ ((value.length + 1) % 2 ^ 32 < value.length) := by rw [hval]; decide
  refine ⟨?_, m3⟩
  induction fuel with
  | zero => rfl
  | succ fuel ih =>
    unfold getmsg_loop
    simp only [hreq, if_true, bind, Run.bind, r1, r2, be16toh_be16 _ hkey, be32toh_be32 _ hv32,
      or_true, m4, if_false, r3]
    have e1 : (0 + 2) % 2 ^ 32 = 2 := by decide
    have e2 : (2 + 4) % 2 ^ 32 = 6 := by decide
    simp only [e1, e2, r2, be32toh_be32 _ hv32, or_true, m4, if_false, if_true, r3, m3, ih]

/-- C22 at a record whose value is 2^32 - 6 zero bytes; and for the payload of six bytes
that declares such a value the copy of the value reads past the payload. -/
theorem getmsg_loop_wraps_witness :
    getmsg_loop sampleEnv
        (some (filter_record sampleEnv.LC_QUERY_KEY (List.replicate (2 ^ 32 - 6) (0 : Byte))))
        1 sampleEnv.fuel 0 = .nofuel
      ∧ lcast_cmd_channel_getmsg sampleEnv sampleSt ⟨11, 6, 1, 0, 7, 0⟩
          (some [2, 0, 255, 255, 255, 250]) = .fault :=
  ⟨(getmsg_loop_wraps sampleEnv (List.replicate (2 ^ 32 - 6) (0 : Byte)) 1 sampleEnv.fuel
      (by decide) (List.length_replicate _ _) (by decide)).1, by decide⟩

/-- C23 fails on the code: on a registered channel, for every payload buffer (shorter
than 2^64 bytes) and every `req->len` below 4 or below 4 plus the declared key
length, `lcast_cmd_channel_setval` makes no check: it reads the length field, the
key or the value (whose length `req->len - k - 4` has wrapped) past the end of
the buffer. -/
theorem setval_unchecked (s : St) (req : lcast_frame_t) (buf : Bytes) (i : Nat) (ch : lcast_chan_t)
    (hreg : lcast_channel_byid s req.id = .done (some (i, ch)))
    (hbuf : buf.length < 2 ^ 64)
    (hbad : req.len < 4 ∨ req.len < 4 + be_val (buf.take 4)) :
    lcast_cmd_channel_setval s req (some buf) = .fault := by
  by_cases h4 : buf.length < 4
  · have r1 : rd (some buf) 0 4 = .fault := by
      have : ¬ (0 + 4 ≤ buf.length) := by omega
      simp [rd, this]
    simp [lcast_cmd_channel_setval, hreg, r1, bind, Run.bind]
  · have r1 : rd (some buf) 0 4 = .done (buf.take 4) := rd_take buf 4 (by omega)
    have l4 : (buf.take 4).length = 4 := by rw [List.length_take]; omega
    have hk : be32toh (le_val (buf.take 4)) = be_val (buf.take 4) := be32toh_of_length _ l4
    have hk32 : be_val (buf.take 4) < 2 ^ 32 := by
      have := be_val_lt (buf.take 4)
      rw [l4] at this
      exact this
    have hlt : req.len < 4 + be_val (buf.take 4) := by
      rcases hbad with h | h
      · omega
      · exact h
    simp only [lcast_cmd_channel_setval, hreg, Option.isNone_some, r1, hk, bind, Run.bind]
    generalize be_val (buf.take 4) = k at hk32 hlt ⊢
    cases hr : rd (some buf) 4 k with
    | fault => simp
    | nofuel =>
      exfalso
      unfold rd at hr
      by_cases h0 : k = 0
      · simp [h0] at hr
      · by_cases hle : 4 + k ≤ buf.length <;> simp [h0, hle] at hr
    | done key =>
      simp only [Nat.reducePow] at hk32 hbuf
      have hn0 : ¬ ((req.len + 36893488147419103232 - k - 4) % 18446744073709551616 = 0) := by
        omega
      have hov : ¬ (4 + k + (req.len + 36893488147419103232 - k - 4) % 18446744073709551616
          ≤ buf.length) := by
        omega
      simp [rd, hn0, hov]

/-- C23 at `req->len = 5` with a declared key length of 9, at `req->len = 2`, and at
`req->len = 5` in front of a longer buffer. -/
theorem setval_unchecked_witness :
    lcast_cmd_channel_setval sampleSt ⟨13, 5, 1, 0, 0, 0⟩ (some [0, 0, 0, 9, 107]) = .fault
      ∧ lcast_cmd_channel_setval sampleSt ⟨13, 2, 1, 0, 0, 0⟩ (some [0, 3]) = .fault
      ∧ lcast_cmd_channel_setval sampleSt ⟨13, 5, 1, 0, 0, 0⟩
          (some [0, 0, 0, 3, 107, 101, 121, 118, 97, 108]) = .fault :=
  ⟨setval_unchecked sampleSt ⟨13, 5, 1, 0, 0, 0⟩ [0, 0, 0, 9, 107] 0 ⟨0, 1, mychannel, false⟩
      (by decide) (by decide) (by decide),
   by decide, by decide⟩

end Lsd
